import Mathlib

/-!
# RNGState_v2 (src/random_v2.cpp)

A shallow embedding of the class `RNGState_v2`: its three fields, its
constructor (entropy source selection followed by the seeding loop) and
`MixExtract`.

Conventions.
* A byte is a `Nat`; byte buffers are `List Nat`.  `uint64_t` and
  `unsigned int` values are `Nat` reduced modulo `2^64` and `2^32` where the
  code can overflow.
* The object representation of an integer is little-endian (`toBytesLE`).
* `assert` is active: a failed assertion ends the call with
  `Failure.AssertionFailed`.
* `crypto/sha512.h` is not among the sources.  The hash is a parameter
  (`HashFunction`): any function from byte strings to 64-byte digests.
* `std::random_device` is the standard library.  The outside world is a
  parameter (`Env`): what a device answers to `entropy()` and to `operator()`
  may depend on every earlier call, which are recorded in a log of `Event`s.
* `entropy()` returns a `double`; an estimate is modelled as a `Nat`, and the test
  `rd->entropy() < sizeof(unsigned int)` as `estimate < 4`.  Opening a device
  (`new std::random_device(token)`) is taken to succeed and is not logged.
* The mutex has no effect on the values computed and is left out.  `MixExtract`
  and `seedLoop` leave out the `memory_cleanse` of their temporaries, which
  changes no result; `MixExtract_traced` and `seedLoop_traced` repeat the two
  bodies with the temporaries and their erasure.
-/

namespace RandomV2

/-! ## Constants and byte helpers -/

/-- The constant `PRNG_STATE_LEN`, the number of bytes of the state. -/
def PRNG_STATE_LEN : Nat := 32

/-- The value of `sizeof(unsigned int)`, the width in bytes of one word read from a device. -/
def sizeof_unsigned_int : Nat := 4

/-- The value of `sizeof(m_counter)`, a `uint64_t`. -/
def sizeof_uint64_t : Nat := 8

/-- The constant `CSHA512::OUTPUT_SIZE`. -/
def OUTPUT_SIZE : Nat := 64

/-- The `w` bytes of the object representation of `n`, least significant byte first. -/
def toBytesLE (n w : Nat) : List Nat :=
  (List.range w).map (fun i => n / 256 ^ i % 256)

/-- The call `memcpy(&dst[off], src, src.length)`: the bytes of `src` replace the bytes of
`dst` at positions `off, off+1, ...`. -/
def memcpy (dst : List Nat) (off : Nat) (src : List Nat) : List Nat :=
  dst.take off ++ src ++ dst.drop (off + src.length)

/-! ## The hash -/

/-- The hash primitive behind `CSHA512`: a function from a message to a digest of
`OUTPUT_SIZE` bytes. -/
structure HashFunction where
  digest : List Nat → List Nat
  digest_length : ∀ m, (digest m).length = OUTPUT_SIZE

/-- A `CSHA512` hasher object: the bytes written to it so far. -/
structure CSHA512 where
  written : List Nat
deriving DecidableEq, Repr

/-- A freshly declared hasher (`CSHA512 hasher;`). -/
def CSHA512.init : CSHA512 := ⟨[]⟩

/-- The method `CSHA512::Write(data, len)`, with `data` already cut to `len` bytes. -/
def CSHA512.Write (hasher : CSHA512) (data : List Nat) : CSHA512 :=
  ⟨hasher.written ++ data⟩

/-- The method `CSHA512::Finalize(buf)`: the digest of everything written, as the new
content of `buf`. -/
def CSHA512.Finalize (H : HashFunction) (hasher : CSHA512) : List Nat :=
  H.digest hasher.written

/-- The method `CSHA512::Reset()`. -/
def CSHA512.Reset (_hasher : CSHA512) : CSHA512 := ⟨[]⟩

/-! ## The generator state -/

set_option linter.dupNamespace false

/-- The fields of `RNGState_v2`. -/
structure RNGState_v2 where
  m_state : List Nat
  m_counter : Nat
  m_strongly_seeded : Bool
deriving DecidableEq, Repr

/-- The ways a call can end without a result: the three exception classes of
`RNGState_v2`, and a failed `assert`. -/
inductive Failure where
  | NoEntropySourceException
  | OutOfEntropyException
  | NotSeededException
  | AssertionFailed
deriving DecidableEq, Repr

/-- The caller's `unsigned char* out`: null, or pointing to a buffer that can take the
bytes copied to it. -/
inductive OutPtr where
  | nullptr
  | buffer
deriving DecidableEq, Repr

/-- The method `RNGState_v2::MixExtract(out, num)`.  The result is the object as the call
leaves it, and either the `num` bytes copied to `out` or the failure that ended the call. -/
def MixExtract (H : HashFunction) (self : RNGState_v2) (out : OutPtr) (num : Nat) :
    RNGState_v2 × Except Failure (List Nat) :=
  -- assert(num <= PRNG_STATE_LEN);
  if ¬ (num ≤ PRNG_STATE_LEN) then (self, .error .AssertionFailed)
  else
    let hasher : CSHA512 := CSHA512.init
    if ¬ (self.m_strongly_seeded = true) then (self, .error .NotSeededException)
    else
      -- hasher.Write(m_state, PRNG_STATE_LEN);
      let hasher := hasher.Write (self.m_state.take PRNG_STATE_LEN)
      -- hasher.Write((const unsigned char*)&m_counter, sizeof(m_counter));
      let hasher := hasher.Write (toBytesLE self.m_counter sizeof_uint64_t)
      -- ++m_counter;
      let m_counter := (self.m_counter + 1) % 2 ^ 64
      -- hasher.Finalize(buf);
      let buf := hasher.Finalize H
      -- memcpy(m_state, buf + PRNG_STATE_LEN, PRNG_STATE_LEN);
      let m_state := memcpy self.m_state 0 ((buf.drop PRNG_STATE_LEN).take PRNG_STATE_LEN)
      let self' : RNGState_v2 :=
        { m_state := m_state, m_counter := m_counter,
          m_strongly_seeded := self.m_strongly_seeded }
      -- assert(out != nullptr);
      if out = OutPtr.nullptr then (self', .error .AssertionFailed)
      else
        -- memcpy(out, buf, num);
        (self', .ok (buf.take num))

/-! ## Entropy sources -/

/-- The four device tokens the constructor tries, in this order:
`"rdseed"`, `"/dev/random"`, `"/dev/urandom"`, `"default"`. -/
inductive Token where
  | rdseed
  | dev_random
  | dev_urandom
  | default
deriving DecidableEq, Repr

/-- One call made to a device, with its answer. -/
inductive Event where
  | entropy (rd : Token) (estimate : Nat)
  | call (rd : Token) (random_value : Nat)
deriving DecidableEq, Repr

/-- The outside world: the answer of a device to `entropy()` and to `operator()`, given
the log of the calls made before. -/
structure Env where
  entropy : List Event → Token → Nat
  call : List Event → Token → Nat

/-- Lines 44-65 of the constructor: the nested tests that settle which device `rd` ends up
pointing to, or throw `NoEntropySourceException`. -/
def selectSource (env : Env) (log : List Event) : List Event × Except Failure Token :=
  let e := env.entropy log .rdseed
  let log := log ++ [.entropy .rdseed e]
  if e < sizeof_unsigned_int then
    let e := env.entropy log .dev_random
    let log := log ++ [.entropy .dev_random e]
    if e < sizeof_unsigned_int then
      let e := env.entropy log .dev_urandom
      let log := log ++ [.entropy .dev_urandom e]
      if e < sizeof_unsigned_int then
        let e := env.entropy log .default
        let log := log ++ [.entropy .default e]
        if e < sizeof_unsigned_int then
          (log, .error .NoEntropySourceException)
        else (log, .ok .default)
      else (log, .ok .dev_urandom)
    else (log, .ok .dev_random)
  else (log, .ok .rdseed)

/-- Lines 68-85 of the constructor: `remaining` more rounds of the `for` loop, the loop
variable being `i`. -/
def seedLoop (env : Env) (rd : Token) :
    Nat → Nat → List Nat → List Event → List Event × Except Failure (List Nat)
  | 0, _, m_state, log => (log, .ok m_state)
  | remaining + 1, i, m_state, log =>
    let e := env.entropy log rd
    let log := log ++ [.entropy rd e]
    -- if(rd->entropy() < sizeof(unsigned int)) throw OutOfEntropyException();
    if e < sizeof_unsigned_int then (log, .error .OutOfEntropyException)
    else
      -- unsigned int random_value = (*rd)();
      let random_value := env.call log rd % 2 ^ 32
      let log := log ++ [.call rd random_value]
      -- memcpy(&m_state[i*sizeof(unsigned int)], &random_value, sizeof(unsigned int));
      let m_state := memcpy m_state (i * sizeof_unsigned_int)
        (toBytesLE random_value sizeof_unsigned_int)
      seedLoop env rd remaining (i + 1) m_state log

/-- The constructor `RNGState_v2::RNGState_v2()`: the log of the device calls it made, and
the object it built or the exception it threw. -/
def RNGState_v2.RNGState_v2 (env : Env) : List Event × Except Failure RNGState_v2 :=
  match selectSource env [] with
  | (log, .error e) => (log, .error e)
  | (log, .ok rd) =>
    -- m_state = {0}, m_counter = 0, m_strongly_seeded = false
    match seedLoop env rd (PRNG_STATE_LEN / sizeof_unsigned_int) 0
        (List.replicate PRNG_STATE_LEN 0) log with
    | (log, .error e) => (log, .error e)
    | (log, .ok m_state) =>
      -- m_strongly_seeded = true;
      (log, .ok { m_state := m_state, m_counter := 0, m_strongly_seeded := true })

/-! ## Vocabulary of the specification for the constructor -/

/-- The candidate devices in the order the constructor tries them. -/
def candidates : List Token := [.rdseed, .dev_random, .dev_urandom, .default]

/-- Position of a device in the order of `candidates`. -/
def Token.rank : Token → Nat
  | .rdseed => 0
  | .dev_random => 1
  | .dev_urandom => 2
  | .default => 3

/-- The device an event was a call to. -/
def Event.token : Event → Token
  | .entropy rd _ => rd
  | .call rd _ => rd

/-- Whether an event is a word read (`operator()`). -/
def Event.isRead : Event → Bool
  | .entropy _ _ => false
  | .call _ _ => true

/-- The words read from devices, in the order of the log. -/
def wordsRead (log : List Event) : List Nat :=
  log.filterMap (fun ev => match ev with
    | .entropy _ _ => none
    | .call _ w => some w)

/-- The estimate each device of `tokens` reports when the devices are asked one after the
other, starting from the log `log`. -/
def chainEstimates (env : Env) : List Event → List Token → List (Token × Nat)
  | _, [] => []
  | log, rd :: rest =>
    (rd, env.entropy log rd) ::
      chainEstimates env (log ++ [.entropy rd (env.entropy log rd)]) rest

/-- Selection in the words of the specification: the first source whose reported entropy
estimate meets or exceeds one word's worth of bytes. -/
def firstSufficient : List (Token × Nat) → Option Token
  | [] => none
  | (rd, estimate) :: rest =>
    if sizeof_unsigned_int ≤ estimate then some rd else firstSufficient rest

/-- The log after one round of the seeding loop on device `rd` in which the check passes:
the check, then the read. -/
def seedRound (env : Env) (rd : Token) (log : List Event) : List Event :=
  log ++ [.entropy rd (env.entropy log rd)] ++
    [.call rd (env.call (log ++ [.entropy rd (env.entropy log rd)]) rd % 2 ^ 32)]

/-- The log after `j` rounds of the seeding loop that all pass their check. -/
def roundsLog (env : Env) (rd : Token) : Nat → List Event → List Event
  | 0, log => log
  | j + 1, log => roundsLog env rd j (seedRound env rd log)

/-- The words read by `j` rounds of the seeding loop that all pass their check. -/
def roundsWords (env : Env) (rd : Token) : Nat → List Event → List Nat
  | 0, _ => []
  | j + 1, log =>
    (env.call (log ++ [.entropy rd (env.entropy log rd)]) rd % 2 ^ 32) ::
      roundsWords env rd j (seedRound env rd log)

/-- The estimate device `rd` reports at the `k`-th check of the seeding loop (`k` counted
from 1), the `k - 1` checks before it having passed; `log` is the log when the loop starts. -/
def preReadEstimate (env : Env) (rd : Token) (log : List Event) (k : Nat) : Nat :=
  env.entropy (roundsLog env rd (k - 1) log) rd

/-- The state after the words `ws` have been copied into it one after the other, the first
at word position `i`: what the `memcpy` calls of the seeding loop do. -/
def writeWords : List Nat → Nat → List Nat → List Nat
  | m_state, _, [] => m_state
  | m_state, i, w :: ws =>
    writeWords (memcpy m_state (i * sizeof_unsigned_int) (toBytesLE w sizeof_unsigned_int))
      (i + 1) ws

/-- A sequence of `MixExtract(out, num)` calls on one object, one after the other: the
object after the last call and the result of every call.  A failed assertion ends the
process, so after one the later entries describe calls that cannot happen. -/
def runCalls (H : HashFunction) :
    RNGState_v2 → List (OutPtr × Nat) → RNGState_v2 × List (Except Failure (List Nat))
  | self, [] => (self, [])
  | self, (out, num) :: rest =>
    ((runCalls H (MixExtract H self out num).1 rest).1,
      (MixExtract H self out num).2 :: (runCalls H (MixExtract H self out num).1 rest).2)

/-! ## Destruction and the temporaries of the two methods -/

/-- The integer whose object representation is `bytes`, least significant byte first. -/
def fromBytesLE : List Nat → Nat
  | [] => 0
  | b :: rest => b + 256 * fromBytesLE rest

/-- Modelled from the spec: `memory_cleanse(ptr, len)` of `support/cleanse.h`, which is not
among the sources.  It overwrites the first `len` bytes of the buffer with zero. -/
def memory_cleanse (ptr : List Nat) (len : Nat) : List Nat :=
  List.replicate len 0 ++ ptr.drop len

/-- The destructor `RNGState_v2::~RNGState_v2()`: the fields as it leaves them. -/
def RNGState_v2.destructor (self : RandomV2.RNGState_v2) : RandomV2.RNGState_v2 :=
  -- memory_cleanse(m_state, sizeof(m_state));
  let m_state := memory_cleanse self.m_state PRNG_STATE_LEN
  -- memory_cleanse(&m_counter, sizeof(m_counter));
  let m_counter :=
    fromBytesLE (memory_cleanse (toBytesLE self.m_counter sizeof_uint64_t) sizeof_uint64_t)
  { m_state := m_state, m_counter := m_counter,
    m_strongly_seeded := self.m_strongly_seeded }

/-- How a call of `MixExtract` ends, its local buffer included: `buf` is `none` while the
64-byte local `buf` has never been written, and its content otherwise. -/
structure MixExtractExit where
  self : RNGState_v2
  result : Except Failure (List Nat)
  buf : Option (List Nat)

/-- The method `RNGState_v2::MixExtract(out, num)` once more, statement by statement, this
time keeping the content of the local `buf` at the moment the call ends. -/
def MixExtract_traced (H : HashFunction) (self : RNGState_v2) (out : OutPtr) (num : Nat) :
    MixExtractExit :=
  -- assert(num <= PRNG_STATE_LEN);
  if ¬ (num ≤ PRNG_STATE_LEN) then ⟨self, .error .AssertionFailed, none⟩
  else
    -- unsigned char buf[PRNG_STATE_LEN*2];
    let buf : Option (List Nat) := none
    let hasher : CSHA512 := CSHA512.init
    if ¬ (self.m_strongly_seeded = true) then ⟨self, .error .NotSeededException, buf⟩
    else
      let hasher := hasher.Write (self.m_state.take PRNG_STATE_LEN)
      let hasher := hasher.Write (toBytesLE self.m_counter sizeof_uint64_t)
      let m_counter := (self.m_counter + 1) % 2 ^ 64
      -- hasher.Finalize(buf);
      let digest := hasher.Finalize H
      let buf : Option (List Nat) := some digest
      let m_state := memcpy self.m_state 0 ((digest.drop PRNG_STATE_LEN).take PRNG_STATE_LEN)
      let self' : RNGState_v2 :=
        { m_state := m_state, m_counter := m_counter,
          m_strongly_seeded := self.m_strongly_seeded }
      -- assert(out != nullptr);
      if out = OutPtr.nullptr then ⟨self', .error .AssertionFailed, buf⟩
      else
        -- memcpy(out, buf, num);
        let copied := digest.take num
        -- memory_cleanse(buf, sizeof(buf));
        let buf : Option (List Nat) := some (memory_cleanse digest (PRNG_STATE_LEN * 2))
        ⟨self', .ok copied, buf⟩

/-- The seeding loop once more, this time with the storage of the temporary
`random_value`: `none` while no round has written it, and its value otherwise.  The
second component is that storage when the loop ends. -/
def seedLoop_traced (env : Env) (rd : Token) :
    Nat → Nat → List Nat → List Event → Option Nat →
      (List Event × Except Failure (List Nat)) × Option Nat
  | 0, _, m_state, log, tmp => ((log, .ok m_state), tmp)
  | remaining + 1, i, m_state, log, tmp =>
    let e := env.entropy log rd
    let log := log ++ [.entropy rd e]
    if e < sizeof_unsigned_int then ((log, .error .OutOfEntropyException), tmp)
    else
      -- unsigned int random_value = (*rd)();
      let random_value := env.call log rd % 2 ^ 32
      let log := log ++ [.call rd random_value]
      let m_state := memcpy m_state (i * sizeof_unsigned_int)
        (toBytesLE random_value sizeof_unsigned_int)
      -- memory_cleanse(&random_value, sizeof(unsigned int));
      let random_value := fromBytesLE
        (memory_cleanse (toBytesLE random_value sizeof_unsigned_int) sizeof_unsigned_int)
      seedLoop_traced env rd remaining (i + 1) m_state log (some random_value)

/-- The message `MixExtract(out, num)` has written to the hasher when it calls `Finalize`,
or `none` when the call ends before that. -/
def hashInput (self : RNGState_v2) (num : Nat) : Option (List Nat) :=
  if ¬ (num ≤ PRNG_STATE_LEN) then none
  else if ¬ (self.m_strongly_seeded = true) then none
  else
    some (((CSHA512.init.Write (self.m_state.take PRNG_STATE_LEN)).Write
      (toBytesLE self.m_counter sizeof_uint64_t)).written)

/-- The messages hashed by a sequence of `MixExtract` calls on one object, in call order. -/
def hashInputs (H : HashFunction) : RNGState_v2 → List (OutPtr × Nat) → List (List Nat)
  | _, [] => []
  | self, (out, num) :: rest =>
    (hashInput self num).toList ++ hashInputs H (MixExtract H self out num).1 rest

/-- The number of `entropy()` calls on device `rd` in a log. -/
def entropyQueries (rd : Token) (log : List Event) : Nat :=
  (log.filter (fun ev => !ev.isRead && decide (ev.token = rd))).length

/-- The number of words read from device `rd` in a log. -/
def readsOn (rd : Token) (log : List Event) : Nat :=
  (log.filter (fun ev => ev.isRead && decide (ev.token = rd))).length

/-- Whether every read of a log comes right after a check of the same device that reported
at least `sizeof(unsigned int)`; `prev` is the event before the log, if any. -/
def readsChecked : Option Event → List Event → Bool
  | _, [] => true
  | _, .entropy rd e :: rest => readsChecked (some (.entropy rd e)) rest
  | prev, .call rd w :: rest =>
    (match prev with
      | some (.entropy rd' e) => decide (rd' = rd) && decide (sizeof_unsigned_int ≤ e)
      | _ => false) && readsChecked (some (.call rd w)) rest

/-! ## Test fixtures -/

/-- A second stand-in hash: its digests agree with those of `toyHash` on bytes `[32,64)` and
differ on bytes `[0,32)`. -/
def toyHash2 : HashFunction where
  digest m := (List.range OUTPUT_SIZE).map
    (fun i => if i < 32 then (m.sum + m.length + i + 1) % 256 else (m.sum + m.length + i) % 256)
  digest_length m := by simp

/-- A fake world: `"rdseed"` reports 0, `"/dev/random"` reports 3, the other two devices
report 32; the word a device returns is 16909060 = 0x01020304 plus the number of calls
logged so far. -/
def fakeEnv : Env where
  entropy _ rd :=
    match rd with
    | .rdseed => 0
    | .dev_random => 3
    | .dev_urandom => 32
    | .default => 32
  call log _ := 16909060 + log.length

/-- A fake world in which no device ever reports entropy. -/
def dryEnv : Env where
  entropy _ _ := 0
  call _ _ := 0

/-- A fake world in which `"rdseed"` reports 32 for its first two answers and 0 afterwards:
it qualifies, passes the first check of the loop and fails the second. -/
def fadingEnv : Env where
  entropy log _ := if log.length < 2 then 32 else 0
  call _ _ := 7

/-- A stand-in hash for concrete runs: byte `i` of the digest is
`(sum of the message + its length + i) mod 256`. -/
def toyHash : HashFunction where
  digest m := (List.range OUTPUT_SIZE).map (fun i => (m.sum + m.length + i) % 256)
  digest_length m := by simp

/-- A seeded object with an all-zero state and counter zero. -/
def zeroSeeded : RNGState_v2 :=
  { m_state := List.replicate 32 0, m_counter := 0, m_strongly_seeded := true }

/-- The object the constructor builds in the world `fakeEnv`. -/
def fakeSeeded : RNGState_v2 :=
  { m_state := [8, 3, 2, 1, 10, 3, 2, 1, 12, 3, 2, 1, 14, 3, 2, 1,
                16, 3, 2, 1, 18, 3, 2, 1, 20, 3, 2, 1, 22, 3, 2, 1],
    m_counter := 0, m_strongly_seeded := true }

/-- A seeded object whose counter holds the largest `uint64_t`, `2^64 - 1`. -/
def lastCounterSeeded : RNGState_v2 :=
  { m_state := List.replicate 32 0, m_counter := 18446744073709551615,
    m_strongly_seeded := true }

/-! ## MixExtract -/

/-- Claim C1. For a seeded object whose state has 32 bytes, every `num <= 32` and a non-null
`out`, `MixExtract` succeeds: with `d` the 64-byte digest of the 40-byte message made of
the old state followed by the 8 little-endian bytes of the old counter, it returns
`d[0:num)`, leaves `m_state = d[32:64)` and `m_counter = (c + 1) mod 2^64`. -/
theorem MixExtract_digest_halves (H : HashFunction) (s : RNGState_v2) (out : OutPtr)
    (num : Nat) (hseed : s.m_strongly_seeded = true) (hlen : s.m_state.length = 32)
    (hnum : num ≤ 32) (hout : out = OutPtr.buffer) :
    (s.m_state ++ toBytesLE s.m_counter 8).length = 40 ∧
    (H.digest (s.m_state ++ toBytesLE s.m_counter 8)).length = 64 ∧
    MixExtract H s out num =
      ({ m_state := (H.digest (s.m_state ++ toBytesLE s.m_counter 8)).drop 32,
         m_counter := (s.m_counter + 1) % 2 ^ 64,
         m_strongly_seeded := true },
       .ok ((H.digest (s.m_state ++ toBytesLE s.m_counter 8)).take num)) ∧
    ((H.digest (s.m_state ++ toBytesLE s.m_counter 8)).take num).length = num ∧
    ((H.digest (s.m_state ++ toBytesLE s.m_counter 8)).drop 32).length = 32 := by
  have hd : (H.digest (s.m_state ++ toBytesLE s.m_counter 8)).length = 64 :=
    H.digest_length _
  have htake : s.m_state.take 32 = s.m_state := List.take_of_length_le (by omega)
  refine ⟨by simp [toBytesLE, hlen], hd, ?_, by rw [List.length_take, hd]; omega,
    by rw [List.length_drop, hd]⟩
  subst hout
  have hdrop : ((H.digest (s.m_state ++ toBytesLE s.m_counter 8)).drop 32).take 32 =
      (H.digest (s.m_state ++ toBytesLE s.m_counter 8)).drop 32 :=
    List.take_of_length_le (by simp [hd])
  have hrest : s.m_state.drop 32 = [] := List.drop_of_length_le (by omega)
  simp [MixExtract, PRNG_STATE_LEN, sizeof_uint64_t, CSHA512.init, CSHA512.Write,
    CSHA512.Finalize, memcpy, hseed, hnum, htake, hdrop, hd, hrest]

/-- The theorem of claim C1 at the vector of the specification: state 32 zero bytes,
counter 0, `num = 32`, with the stand-in hash. -/
theorem MixExtract_digest_halves_witness :
    zeroSeeded.m_strongly_seeded = true ∧ zeroSeeded.m_state.length = 32 ∧ 32 ≤ 32 ∧
    zeroSeeded.m_state ++ toBytesLE zeroSeeded.m_counter 8 = List.replicate 40 0 ∧
    MixExtract toyHash zeroSeeded OutPtr.buffer 32 =
      ({ m_state := (toyHash.digest (List.replicate 40 0)).drop 32,
         m_counter := 1,
         m_strongly_seeded := true },
       .ok ((toyHash.digest (List.replicate 40 0)).take 32)) :=
  ⟨rfl, rfl, Nat.le_refl 32, rfl,
    (MixExtract_digest_halves toyHash zeroSeeded OutPtr.buffer 32 rfl rfl
      (Nat.le_refl 32) rfl).2.2.1⟩

/-- Claim C2. Truncation consistency: from the same seeded object, the bytes
`MixExtract(num)` returns, `num <= 32`, are the first `num` bytes of those `MixExtract(32)`
returns. -/
theorem MixExtract_truncation (H : HashFunction) (s : RNGState_v2) (out : OutPtr)
    (num : Nat) (hseed : s.m_strongly_seeded = true) (hnum : num ≤ 32)
    (hout : out = OutPtr.buffer) :
    ∃ r full, (MixExtract H s out num).2 = .ok r ∧ (MixExtract H s out 32).2 = .ok full ∧
      full.length = 32 ∧ r = full.take num := by
  subst hout
  refine ⟨(H.digest (s.m_state.take 32 ++ toBytesLE s.m_counter 8)).take num,
    (H.digest (s.m_state.take 32 ++ toBytesLE s.m_counter 8)).take 32, ?_, ?_, ?_, ?_⟩
  · simp [MixExtract, PRNG_STATE_LEN, sizeof_uint64_t, CSHA512.init, CSHA512.Write,
      CSHA512.Finalize, hseed, hnum]
  · simp [MixExtract, PRNG_STATE_LEN, sizeof_uint64_t, CSHA512.init, CSHA512.Write,
      CSHA512.Finalize, hseed]
  · have := H.digest_length (s.m_state.take 32 ++ toBytesLE s.m_counter 8)
    simp [this, OUTPUT_SIZE]
  · rw [List.take_take, Nat.min_eq_left hnum]

/-- The theorem of claim C2 at the all-zero seeded object and `num = 5`. -/
theorem MixExtract_truncation_witness :
    zeroSeeded.m_strongly_seeded = true ∧ 5 ≤ 32 ∧
    ∃ r full, (MixExtract toyHash zeroSeeded OutPtr.buffer 5).2 = .ok r ∧
      (MixExtract toyHash zeroSeeded OutPtr.buffer 32).2 = .ok full ∧
      full.length = 32 ∧ r = full.take 5 :=
  ⟨rfl, by decide,
    MixExtract_truncation toyHash zeroSeeded OutPtr.buffer 5 rfl (by decide) rfl⟩

/-- Claim C3. For `num <= 32`, `MixExtract` fails with `NotSeededException` exactly when
`m_strongly_seeded` is false, and then leaves the three fields as they were. -/
theorem MixExtract_not_seeded (H : HashFunction) (s : RNGState_v2) (out : OutPtr)
    (num : Nat) (hnum : num ≤ 32) :
    ((MixExtract H s out num).2 = .error Failure.NotSeededException ↔
      s.m_strongly_seeded = false) ∧
    (s.m_strongly_seeded = false → (MixExtract H s out num).1 = s) := by
  have hn : num ≤ PRNG_STATE_LEN := hnum
  cases hs : s.m_strongly_seeded with
  | false => simp [MixExtract, hn, hs]
  | true =>
    cases out <;> simp [MixExtract, hn, hs]

/-- The theorem of claim C3 at an object that was never seeded, `num = 32`. -/
theorem MixExtract_not_seeded_witness :
    32 ≤ 32 ∧
    (MixExtract toyHash ⟨List.replicate 32 0, 0, false⟩ OutPtr.buffer 32).2 =
      .error Failure.NotSeededException ∧
    (MixExtract toyHash ⟨List.replicate 32 0, 0, false⟩ OutPtr.buffer 32).1 =
      ⟨List.replicate 32 0, 0, false⟩ :=
  ⟨Nat.le_refl 32,
    (MixExtract_not_seeded toyHash ⟨List.replicate 32 0, 0, false⟩ OutPtr.buffer 32
      (Nat.le_refl 32)).1.2 rfl,
    (MixExtract_not_seeded toyHash ⟨List.replicate 32 0, 0, false⟩ OutPtr.buffer 32
      (Nat.le_refl 32)).2 rfl⟩

/-- Claim C4. For `num > 32`, seeded or not, `MixExtract` ends at its first assertion: it
returns no bytes and leaves the object as it was. -/
theorem MixExtract_num_too_large (H : HashFunction) (s : RNGState_v2) (out : OutPtr)
    (num : Nat) (hnum : 32 < num) :
    MixExtract H s out num = (s, .error Failure.AssertionFailed) := by
  have hn : ¬ (num ≤ PRNG_STATE_LEN) := by simp [PRNG_STATE_LEN]; omega
  simp [MixExtract, hn]

/-- The theorem of claim C4 at the all-zero seeded object and `num = 33`. -/
theorem MixExtract_num_too_large_witness :
    32 < 33 ∧
    MixExtract toyHash zeroSeeded OutPtr.buffer 33 =
      (zeroSeeded, .error Failure.AssertionFailed) :=
  ⟨by decide, MixExtract_num_too_large toyHash zeroSeeded OutPtr.buffer 33 (by decide)⟩

/-! ## The constructor: helper lemmas -/

theorem toBytesLE_length (n w : Nat) : (toBytesLE n w).length = w := by
  simp [toBytesLE]

theorem seedLoop_succ (env : Env) (rd : Token) (k i : Nat) (st : List Nat)
    (log : List Event) :
    seedLoop env rd (k + 1) i st log =
      if env.entropy log rd < sizeof_unsigned_int then
        (log ++ [.entropy rd (env.entropy log rd)], .error .OutOfEntropyException)
      else
        seedLoop env rd k (i + 1)
          (memcpy st (i * sizeof_unsigned_int)
            (toBytesLE (env.call (log ++ [.entropy rd (env.entropy log rd)]) rd % 2 ^ 32)
              sizeof_unsigned_int))
          (seedRound env rd log) := by
  simp [seedLoop, seedRound]

/-- When the first `k` checks pass, `k` rounds of the loop end normally, with the log and
the words of `k` passing rounds. -/
theorem seedLoop_pass (env : Env) (rd : Token) :
    ∀ (k i : Nat) (st : List Nat) (log : List Event),
      (∀ j, j < k → sizeof_unsigned_int ≤ env.entropy (roundsLog env rd j log) rd) →
      seedLoop env rd k i st log =
        (roundsLog env rd k log, .ok (writeWords st i (roundsWords env rd k log))) := by
  intro k
  induction k with
  | zero => intro i st log _; simp [seedLoop, roundsLog, roundsWords, writeWords]
  | succ k ih =>
    intro i st log h
    have h0 : sizeof_unsigned_int ≤ env.entropy log rd := by
      simpa [roundsLog] using h 0 (Nat.succ_pos k)
    have hrest : ∀ j, j < k →
        sizeof_unsigned_int ≤ env.entropy (roundsLog env rd j (seedRound env rd log)) rd := by
      intro j hj
      simpa [roundsLog] using h (j + 1) (Nat.succ_lt_succ hj)
    rw [seedLoop_succ, if_neg (Nat.not_lt.mpr h0), ih _ _ _ hrest]
    simp [roundsLog, roundsWords, writeWords]

/-- When check number `j` (counted from 0) is the first to fail, the loop throws
`OutOfEntropyException` right after that check. -/
theorem seedLoop_fail (env : Env) (rd : Token) :
    ∀ (k i : Nat) (st : List Nat) (log : List Event) (j : Nat), j < k →
      (∀ j', j' < j → sizeof_unsigned_int ≤ env.entropy (roundsLog env rd j' log) rd) →
      env.entropy (roundsLog env rd j log) rd < sizeof_unsigned_int →
      seedLoop env rd k i st log =
        (roundsLog env rd j log ++ [.entropy rd (env.entropy (roundsLog env rd j log) rd)],
          .error .OutOfEntropyException) := by
  intro k
  induction k with
  | zero => intro i st log j hj; omega
  | succ k ih =>
    intro i st log j hj hpass hfail
    cases j with
    | zero =>
      have h0 : env.entropy log rd < sizeof_unsigned_int := by simpa [roundsLog] using hfail
      rw [seedLoop_succ, if_pos h0]
      simp [roundsLog]
    | succ j =>
      have h0 : sizeof_unsigned_int ≤ env.entropy log rd := by
        simpa [roundsLog] using hpass 0 (Nat.succ_pos j)
      have hrest : ∀ j', j' < j →
          sizeof_unsigned_int ≤ env.entropy (roundsLog env rd j' (seedRound env rd log)) rd := by
        intro j' hj'
        simpa [roundsLog] using hpass (j' + 1) (Nat.succ_lt_succ hj')
      have hfail' :
          env.entropy (roundsLog env rd j (seedRound env rd log)) rd < sizeof_unsigned_int := by
        simpa [roundsLog] using hfail
      rw [seedLoop_succ, if_neg (Nat.not_lt.mpr h0),
        ih _ _ _ j (Nat.lt_of_succ_lt_succ hj) hrest hfail']
      simp [roundsLog]

/-- Either the first `k` checks all pass, or one of them is the first to fail. -/
theorem checks_dichotomy (est : Nat → Nat) (k : Nat) :
    (∀ j, j < k → sizeof_unsigned_int ≤ est j) ∨
    ∃ j, j < k ∧ (∀ j', j' < j → sizeof_unsigned_int ≤ est j') ∧
      est j < sizeof_unsigned_int := by
  induction k with
  | zero => left; intro j hj; omega
  | succ k ih =>
    rcases ih with hall | ⟨j, hj, hpass, hfail⟩
    · by_cases hk : sizeof_unsigned_int ≤ est k
      · left
        intro j hj
        rcases Nat.lt_succ_iff_lt_or_eq.mp hj with h | h
        · exact hall j h
        · exact h ▸ hk
      · right
        exact ⟨k, Nat.lt_succ_self k, hall, Nat.lt_of_not_le hk⟩
    · right
      exact ⟨j, Nat.lt_succ_of_lt hj, hpass, hfail⟩

/-- The selection of the code is the selection of the specification over the estimates
the devices report in turn. -/
theorem selectSource_eq_firstSufficient (env : Env) (log : List Event) :
    (selectSource env log).2 =
      match firstSufficient (chainEstimates env log candidates) with
      | some rd => .ok rd
      | none => .error .NoEntropySourceException := by
  simp only [selectSource, chainEstimates, candidates, firstSufficient]
  split_ifs <;> first | rfl | omega

/-- The two ways the seeding loop can end. -/
theorem seedLoop_outcome (env : Env) (rd : Token) (k i : Nat) (st : List Nat)
    (log : List Event) :
    ((∀ j, j < k → sizeof_unsigned_int ≤ env.entropy (roundsLog env rd j log) rd) ∧
      seedLoop env rd k i st log =
        (roundsLog env rd k log, .ok (writeWords st i (roundsWords env rd k log)))) ∨
    ∃ j, j < k ∧
      (∀ j', j' < j → sizeof_unsigned_int ≤ env.entropy (roundsLog env rd j' log) rd) ∧
      env.entropy (roundsLog env rd j log) rd < sizeof_unsigned_int ∧
      seedLoop env rd k i st log =
        (roundsLog env rd j log ++ [.entropy rd (env.entropy (roundsLog env rd j log) rd)],
          .error .OutOfEntropyException) := by
  rcases checks_dichotomy (fun j => env.entropy (roundsLog env rd j log) rd) k with
    hall | ⟨j, hj, hpass, hfail⟩
  · exact Or.inl ⟨hall, seedLoop_pass env rd k i st log hall⟩
  · exact Or.inr ⟨j, hj, hpass, hfail, seedLoop_fail env rd k i st log j hj hpass hfail⟩

/-- The only failure of the selection is `NoEntropySourceException`. -/
theorem selectSource_error (env : Env) (log log' : List Event) (e : Failure)
    (h : selectSource env log = (log', .error e)) : e = .NoEntropySourceException := by
  simp only [selectSource] at h
  split_ifs at h <;> simp_all

/-- The constructor when the selection throws. -/
theorem ctor_of_select_error (env : Env) (log : List Event) (e : Failure)
    (h : selectSource env [] = (log, .error e)) :
    RNGState_v2.RNGState_v2 env = (log, .error e) := by
  simp [RNGState_v2.RNGState_v2, h]

/-- The constructor when the selection settles on `rd` and every check of the loop passes. -/
theorem ctor_of_pass (env : Env) (log : List Event) (rd : Token)
    (h : selectSource env [] = (log, .ok rd))
    (hall : ∀ j, j < 8 → sizeof_unsigned_int ≤ env.entropy (roundsLog env rd j log) rd) :
    RNGState_v2.RNGState_v2 env =
      (roundsLog env rd 8 log,
        .ok { m_state := writeWords (List.replicate 32 0) 0 (roundsWords env rd 8 log),
              m_counter := 0, m_strongly_seeded := true }) := by
  have hk : PRNG_STATE_LEN / sizeof_unsigned_int = 8 := by decide
  simp only [RNGState_v2.RNGState_v2, h, hk]
  rw [seedLoop_pass env rd 8 0 _ log hall]
  rfl

/-- The constructor when the selection settles on `rd` and check `j` (counted from 0) of
the loop is the first to fail. -/
theorem ctor_of_fail (env : Env) (log : List Event) (rd : Token)
    (h : selectSource env [] = (log, .ok rd)) (j : Nat) (hj : j < 8)
    (hpass : ∀ j', j' < j → sizeof_unsigned_int ≤ env.entropy (roundsLog env rd j' log) rd)
    (hfail : env.entropy (roundsLog env rd j log) rd < sizeof_unsigned_int) :
    RNGState_v2.RNGState_v2 env =
      (roundsLog env rd j log ++ [.entropy rd (env.entropy (roundsLog env rd j log) rd)],
        .error .OutOfEntropyException) := by
  have hk : PRNG_STATE_LEN / sizeof_unsigned_int = 8 := by decide
  simp only [RNGState_v2.RNGState_v2, h, hk]
  rw [seedLoop_fail env rd 8 0 _ log j hj hpass hfail]

/-- No estimate of the list reaches the threshold exactly when the specification selects
nothing. -/
theorem firstSufficient_eq_none (l : List (Token × Nat)) :
    firstSufficient l = none ↔ ∀ p, p ∈ l → p.2 < sizeof_unsigned_int := by
  induction l with
  | nil => simp [firstSufficient]
  | cons p rest ih =>
    obtain ⟨rd, e⟩ := p
    by_cases he : sizeof_unsigned_int ≤ e
    · simp only [firstSufficient, if_pos he, List.mem_cons]
      constructor
      · intro h; cases h
      · intro h
        have := h (rd, e) (Or.inl rfl)
        simp at this
        omega
    · simp only [firstSufficient, if_neg he, ih, List.mem_cons]
      constructor
      · intro h p hp
        rcases hp with rfl | hp
        · exact Nat.lt_of_not_le he
        · exact h p hp
      · intro h p hp
        exact h p (Or.inr hp)

theorem wordsRead_append (l l' : List Event) :
    wordsRead (l ++ l') = wordsRead l ++ wordsRead l' := by
  simp [wordsRead, List.filterMap_append]

theorem wordsRead_selectSource (env : Env) (log : List Event) :
    wordsRead (selectSource env log).1 = wordsRead log := by
  simp only [selectSource]
  split_ifs <;> simp [wordsRead, List.filterMap_append]

theorem wordsRead_roundsLog (env : Env) (rd : Token) :
    ∀ (k : Nat) (log : List Event),
      wordsRead (roundsLog env rd k log) = wordsRead log ++ roundsWords env rd k log := by
  intro k
  induction k with
  | zero => intro log; simp [roundsLog, roundsWords]
  | succ k ih =>
    intro log
    rw [roundsLog, ih, roundsWords, seedRound, wordsRead_append, wordsRead_append]
    simp [wordsRead]

theorem roundsWords_length (env : Env) (rd : Token) :
    ∀ (k : Nat) (log : List Event), (roundsWords env rd k log).length = k := by
  intro k
  induction k with
  | zero => intro log; simp [roundsWords]
  | succ k ih => intro log; simp [roundsWords, ih]

theorem memcpy_length (dst : List Nat) (off : Nat) (src : List Nat)
    (h : off + src.length ≤ dst.length) : (memcpy dst off src).length = dst.length := by
  simp [memcpy]
  omega

theorem writeWords_eq :
    ∀ (ws : List Nat) (st : List Nat) (i : Nat),
      sizeof_unsigned_int * (i + ws.length) ≤ st.length →
      writeWords st i ws =
        st.take (sizeof_unsigned_int * i) ++
          ws.flatMap (fun w => toBytesLE w sizeof_unsigned_int) ++
          st.drop (sizeof_unsigned_int * (i + ws.length)) := by
  intro ws
  induction ws with
  | nil => intro st i _; simp [writeWords]
  | cons w ws ih =>
    intro st i h
    simp only [sizeof_unsigned_int, List.length_cons] at h
    have hb : (toBytesLE w 4).length = 4 := toBytesLE_length w 4
    have hlen : (memcpy st (i * 4) (toBytesLE w 4)).length = st.length :=
      memcpy_length _ _ _ (by rw [hb]; omega)
    have h1 : (st.take (i * 4) ++ toBytesLE w 4).length = 4 * (i + 1) := by
      simp [hb]; omega
    simp only [writeWords, sizeof_unsigned_int]
    have ih' := ih (memcpy st (i * 4) (toBytesLE w 4)) (i + 1)
      (by simp only [sizeof_unsigned_int]; rw [hlen]; omega)
    simp only [sizeof_unsigned_int] at ih'
    rw [ih']
    have htake : (memcpy st (i * 4) (toBytesLE w 4)).take (4 * (i + 1)) =
        st.take (4 * i) ++ toBytesLE w 4 := by
      unfold memcpy
      rw [← h1, List.take_left, Nat.mul_comm]
    have hdrop : (memcpy st (i * 4) (toBytesLE w 4)).drop (4 * (i + 1 + ws.length)) =
        st.drop (4 * (i + (ws.length + 1))) := by
      unfold memcpy
      have e : 4 * (i + 1 + ws.length) =
          (st.take (i * 4) ++ toBytesLE w 4).length + 4 * ws.length := by
        rw [h1]; omega
      rw [e, List.drop_append, List.drop_drop, hb]
      congr 1
      omega
    rw [htake, hdrop]
    simp [List.flatMap_cons]

theorem flatMap_chunk :
    ∀ (ws : List Nat) (i w : Nat), ws[i]? = some w →
      ((ws.flatMap (fun w => toBytesLE w sizeof_unsigned_int)).drop
        (sizeof_unsigned_int * i)).take sizeof_unsigned_int =
        toBytesLE w sizeof_unsigned_int := by
  intro ws
  induction ws with
  | nil => intro i w h; simp at h
  | cons a ws ih =>
    intro i w h
    have hb : (toBytesLE a sizeof_unsigned_int).length = sizeof_unsigned_int :=
      toBytesLE_length _ _
    cases i with
    | zero =>
      simp at h
      subst h
      simp only [List.flatMap_cons, Nat.mul_zero, List.drop_zero]
      rw [List.take_append_of_le_length (Nat.le_of_eq hb.symm),
        List.take_of_length_le (Nat.le_of_eq hb)]
    | succ i =>
      simp at h
      have e : sizeof_unsigned_int * (i + 1) =
          (toBytesLE a sizeof_unsigned_int).length + sizeof_unsigned_int * i := by
        rw [hb]; simp [sizeof_unsigned_int]; omega
      simp only [List.flatMap_cons]
      rw [e, List.drop_append]
      exact ih i w h

theorem mem_roundsLog (env : Env) (rd : Token) (ev : Event) :
    ∀ (k : Nat) (log : List Event), ev ∈ roundsLog env rd k log → ev ∈ log ∨ ev.token = rd := by
  intro k
  induction k with
  | zero => intro log h; exact Or.inl h
  | succ k ih =>
    intro log h
    rcases ih _ h with h' | h'
    · simp only [seedRound, List.mem_append, List.mem_singleton] at h'
      rcases h' with (h' | h') | h'
      · exact Or.inl h'
      · exact Or.inr (by rw [h']; rfl)
      · exact Or.inr (by rw [h']; rfl)
    · exact Or.inr h'

theorem mem_selectSource (env : Env) (log : List Event) (rd : Token) (ev : Event)
    (h : selectSource env [] = (log, .ok rd)) (hev : ev ∈ log) :
    ev.isRead = false ∧ ev.token.rank ≤ rd.rank := by
  simp only [selectSource] at h
  split_ifs at h <;> simp only [Prod.mk.injEq, Except.ok.injEq, reduceCtorEq, and_false] at h
  all_goals
    obtain ⟨rfl, rfl⟩ := h
    simp only [List.nil_append, List.cons_append, List.mem_cons, List.mem_singleton,
      List.not_mem_nil, or_false] at hev
    rcases hev with rfl | rfl | rfl | rfl <;> simp [Event.isRead, Event.token, Token.rank]

/-! ## The constructor: source selection and seeding -/

/-- Claim C5. Whatever the devices report, the constructor settles on the first device, in
the order rdseed, /dev/random, /dev/urandom, default, whose estimate is at least
`sizeof(unsigned int)` (an estimate equal to it qualifies); and the constructor throws
`NoEntropySourceException` exactly when no device reports such an estimate. -/
theorem ctor_selects_first_sufficient (env : Env) :
    ((selectSource env []).2 =
      match firstSufficient (chainEstimates env [] candidates) with
      | some rd => .ok rd
      | none => .error .NoEntropySourceException) ∧
    ((RNGState_v2.RNGState_v2 env).2 = .error .NoEntropySourceException ↔
      firstSufficient (chainEstimates env [] candidates) = none) ∧
    (firstSufficient (chainEstimates env [] candidates) = none ↔
      ∀ p, p ∈ chainEstimates env [] candidates → p.2 < sizeof_unsigned_int) ∧
    (∀ rd rest, firstSufficient ((rd, sizeof_unsigned_int) :: rest) = some rd) := by
  refine ⟨selectSource_eq_firstSufficient env [], ?_, firstSufficient_eq_none _, ?_⟩
  · have hsel := selectSource_eq_firstSufficient env []
    rcases hs : selectSource env [] with ⟨log, r⟩
    rw [hs] at hsel
    cases r with
    | error e =>
      have he := selectSource_error env [] log e hs
      subst he
      rw [ctor_of_select_error env log _ hs]
      cases hf : firstSufficient (chainEstimates env [] candidates) with
      | none => simp
      | some rd => rw [hf] at hsel; simp at hsel
    | ok rd =>
      have hne : firstSufficient (chainEstimates env [] candidates) ≠ none := by
        intro hf
        rw [hf] at hsel
        simp at hsel
      have hk : PRNG_STATE_LEN / sizeof_unsigned_int = 8 := by decide
      rcases seedLoop_outcome env rd 8 0 (List.replicate 32 0) log with
        ⟨hall, _⟩ | ⟨j, hj, hpass, hfail, _⟩
      · rw [ctor_of_pass env log rd hs hall]
        simp [hne]
      · rw [ctor_of_fail env log rd hs j hj hpass hfail]
        simp [hne]
  · intro rd rest
    simp [firstSufficient]

/-- The theorem of claim C5 in two fake worlds: in `fakeEnv` the third device is the first
to qualify and is selected; in `dryEnv` no device qualifies and the constructor throws
`NoEntropySourceException`. -/
theorem ctor_selects_first_sufficient_witness :
    (selectSource fakeEnv []).2 = .ok .dev_urandom ∧
    (RNGState_v2.RNGState_v2 dryEnv).2 = .error .NoEntropySourceException :=
  ⟨(ctor_selects_first_sufficient fakeEnv).1,
    (ctor_selects_first_sufficient dryEnv).2.1.mpr rfl⟩

/-- Claim C6. The constructor throws `OutOfEntropyException`, and so builds no object,
exactly when a device `rd` was selected and for some `k` in 1..8 that device passes the
checks 1..k-1 of the seeding loop and reports less than `sizeof(unsigned int)` at check `k`. -/
theorem ctor_out_of_entropy_iff (env : Env) :
    (RNGState_v2.RNGState_v2 env).2 = .error .OutOfEntropyException ↔
      ∃ log rd, selectSource env [] = (log, .ok rd) ∧
        ∃ k, 1 ≤ k ∧ k ≤ 8 ∧
          (∀ j, 1 ≤ j → j < k → sizeof_unsigned_int ≤ preReadEstimate env rd log j) ∧
          preReadEstimate env rd log k < sizeof_unsigned_int := by
  constructor
  · intro h
    rcases hs : selectSource env [] with ⟨log, r⟩
    cases r with
    | error e =>
      have he := selectSource_error env [] log e hs
      subst he
      rw [ctor_of_select_error env log _ hs] at h
      simp at h
    | ok rd =>
      refine ⟨log, rd, rfl, ?_⟩
      rcases seedLoop_outcome env rd 8 0 (List.replicate 32 0) log with
        ⟨hall, _⟩ | ⟨j, hj, hpass, hfail, _⟩
      · rw [ctor_of_pass env log rd hs hall] at h
        simp at h
      · refine ⟨j + 1, by omega, by omega, ?_, ?_⟩
        · intro j' h1 h2
          have := hpass (j' - 1) (by omega)
          simpa [preReadEstimate] using this
        · simpa [preReadEstimate] using hfail
  · rintro ⟨log, rd, hs, k, hk1, hk8, hpass, hfail⟩
    have hpass' : ∀ j', j' < k - 1 →
        sizeof_unsigned_int ≤ env.entropy (roundsLog env rd j' log) rd := by
      intro j' hj'
      have := hpass (j' + 1) (by omega) (by omega)
      simpa [preReadEstimate] using this
    rw [ctor_of_fail env log rd hs (k - 1) (by omega) hpass' hfail]

/-- The theorem of claim C6 in the fake world where the selected device passes the first
check of the loop and fails the second: the constructor throws `OutOfEntropyException`. -/
theorem ctor_out_of_entropy_iff_witness :
    (RNGState_v2.RNGState_v2 fadingEnv).2 = .error .OutOfEntropyException ∧
    wordsRead (RNGState_v2.RNGState_v2 fadingEnv).1 = [7] :=
  ⟨(ctor_out_of_entropy_iff fadingEnv).mpr
    ⟨[.entropy .rdseed 32], .rdseed, rfl, 2, by decide, by decide,
      fun j h1 h2 => by
        have hj : j = 1 := by omega
        subst hj
        decide,
      by decide⟩, rfl⟩

/-- Claim C7. When a device is selected and passes the 8 checks of the seeding loop, the
constructor returns an object with `m_strongly_seeded = true` whose 32-byte state is the
concatenation, in read order, of the 4-byte little-endian encodings of the 8 words read:
word `i` fills bytes `[4i, 4i+4)`, so every byte of the state is written. -/
theorem ctor_fully_seeds (env : Env) (log : List Event) (rd : Token)
    (hsel : selectSource env [] = (log, .ok rd))
    (hall : ∀ k, 1 ≤ k → k ≤ 8 → sizeof_unsigned_int ≤ preReadEstimate env rd log k) :
    ∃ log' s, RNGState_v2.RNGState_v2 env = (log', .ok s) ∧
      s.m_strongly_seeded = true ∧
      (wordsRead log').length = 8 ∧
      s.m_state = (wordsRead log').flatMap (fun w => toBytesLE w sizeof_unsigned_int) ∧
      s.m_state.length = 32 ∧
      ∀ i w, (wordsRead log')[i]? = some w →
        (s.m_state.drop (sizeof_unsigned_int * i)).take sizeof_unsigned_int =
          toBytesLE w sizeof_unsigned_int := by
  have hall' : ∀ j, j < 8 →
      sizeof_unsigned_int ≤ env.entropy (roundsLog env rd j log) rd := by
    intro j hj
    have := hall (j + 1) (by omega) (by omega)
    simpa [preReadEstimate] using this
  have hw0 : wordsRead log = [] := by
    have := wordsRead_selectSource env []
    rw [hsel] at this
    simpa [wordsRead] using this
  have hwords : wordsRead (roundsLog env rd 8 log) = roundsWords env rd 8 log := by
    rw [wordsRead_roundsLog, hw0, List.nil_append]
  have hlen8 : (roundsWords env rd 8 log).length = 8 := roundsWords_length env rd 8 log
  have hstate : writeWords (List.replicate 32 0) 0 (roundsWords env rd 8 log) =
      (roundsWords env rd 8 log).flatMap (fun w => toBytesLE w sizeof_unsigned_int) := by
    rw [writeWords_eq _ _ 0 (by simp [hlen8, sizeof_unsigned_int])]
    simp [hlen8, sizeof_unsigned_int]
  refine ⟨roundsLog env rd 8 log, _, ctor_of_pass env log rd hsel hall', rfl, ?_, ?_, ?_, ?_⟩
  · rw [hwords, hlen8]
  · rw [hwords]; exact hstate
  · show (writeWords (List.replicate 32 0) 0 (roundsWords env rd 8 log)).length = 32
    have hsum : ∀ ws : List Nat,
        (ws.flatMap (fun w => toBytesLE w sizeof_unsigned_int)).length =
          sizeof_unsigned_int * ws.length := by
      intro ws
      induction ws with
      | nil => simp
      | cons a ws ih =>
        rw [List.flatMap_cons, List.length_append, ih, toBytesLE_length, List.length_cons]
        simp only [sizeof_unsigned_int]
        omega
    rw [hstate, hsum, hlen8]
    rfl
  · intro i w hi
    show ((writeWords (List.replicate 32 0) 0 (roundsWords env rd 8 log)).drop
      (sizeof_unsigned_int * i)).take sizeof_unsigned_int = toBytesLE w sizeof_unsigned_int
    rw [hstate]
    rw [hwords] at hi
    exact flatMap_chunk _ i w hi

/-- The theorem of claim C7 in the fake world where the third device is the first to
qualify and never runs dry. -/
theorem ctor_fully_seeds_witness :
    selectSource fakeEnv [] =
      ([.entropy .rdseed 0, .entropy .dev_random 3, .entropy .dev_urandom 32],
        .ok .dev_urandom) ∧
    ∃ log' s, RNGState_v2.RNGState_v2 fakeEnv = (log', .ok s) ∧
      s.m_strongly_seeded = true ∧
      (wordsRead log').length = 8 ∧
      s.m_state = (wordsRead log').flatMap (fun w => toBytesLE w sizeof_unsigned_int) ∧
      s.m_state.length = 32 ∧
      ∀ i w, (wordsRead log')[i]? = some w →
        (s.m_state.drop (sizeof_unsigned_int * i)).take sizeof_unsigned_int =
          toBytesLE w sizeof_unsigned_int :=
  ⟨rfl, ctor_fully_seeds fakeEnv _ .dev_urandom rfl
    (fun _ _ _ => (by decide : (4 : Nat) ≤ 32))⟩

/-- Claim C8. When the constructor settles on device `rd` (the devices before it report
too little, `rd` reports enough), every word it reads, whether it then succeeds or throws,
is read from `rd`, and no device ranked after `rd` is asked for its estimate or read. -/
theorem ctor_reads_only_selected (env : Env) (rd : Token)
    (hsel : firstSufficient (chainEstimates env [] candidates) = some rd) :
    ∀ ev, ev ∈ (RNGState_v2.RNGState_v2 env).1 →
      ev.token.rank ≤ rd.rank ∧ (ev.isRead = true → ev.token = rd) := by
  have hs2 := selectSource_eq_firstSufficient env []
  rw [hsel] at hs2
  rcases hs : selectSource env [] with ⟨log, r⟩
  rw [hs] at hs2
  simp only at hs2
  subst hs2
  have key : ∀ k ev, ev ∈ roundsLog env rd k log →
      ev.token.rank ≤ rd.rank ∧ (ev.isRead = true → ev.token = rd) := by
    intro k ev hev
    rcases mem_roundsLog env rd ev k log hev with h | h
    · have := mem_selectSource env log rd ev hs h
      exact ⟨this.2, fun hr => by rw [this.1] at hr; cases hr⟩
    · exact ⟨by rw [h], fun _ => h⟩
  intro ev hev
  rcases seedLoop_outcome env rd 8 0 (List.replicate 32 0) log with
    ⟨hall, _⟩ | ⟨j, hj, hpass, hfail, _⟩
  · rw [ctor_of_pass env log rd hs hall] at hev
    exact key 8 ev hev
  · rw [ctor_of_fail env log rd hs j hj hpass hfail] at hev
    simp only [List.mem_append, List.mem_singleton] at hev
    rcases hev with h | h
    · exact key j ev h
    · subst h
      exact ⟨Nat.le_refl _, fun _ => rfl⟩

/-- The theorem of claim C8 in the fake world with two insufficient devices followed by a
sufficient one. -/
theorem ctor_reads_only_selected_witness :
    firstSufficient (chainEstimates fakeEnv [] candidates) = some .dev_urandom ∧
    (wordsRead (RNGState_v2.RNGState_v2 fakeEnv).1).length = 8 ∧
    ∀ ev, ev ∈ (RNGState_v2.RNGState_v2 fakeEnv).1 →
      ev.token.rank ≤ Token.dev_urandom.rank ∧ (ev.isRead = true → ev.token = .dev_urandom) :=
  ⟨rfl, rfl, ctor_reads_only_selected fakeEnv .dev_urandom rfl⟩

/-! ## Sequences of calls: helper lemmas -/

theorem MixExtract_seeded_unchanged (H : HashFunction) (s : RNGState_v2) (out : OutPtr)
    (num : Nat) : (MixExtract H s out num).1.m_strongly_seeded = s.m_strongly_seeded := by
  unfold MixExtract
  split_ifs <;> rfl

theorem MixExtract_seeded_no_NotSeeded (H : HashFunction) (s : RNGState_v2) (out : OutPtr)
    (num : Nat) (hs : s.m_strongly_seeded = true) :
    (MixExtract H s out num).2 ≠ .error Failure.NotSeededException := by
  unfold MixExtract
  split_ifs <;> simp_all

theorem MixExtract_ok_counter (H : HashFunction) (s : RNGState_v2) (out : OutPtr)
    (num : Nat) (hok : (MixExtract H s out num).2.isOk = true) :
    (MixExtract H s out num).1.m_counter = (s.m_counter + 1) % 2 ^ 64 := by
  unfold MixExtract at hok ⊢
  split_ifs at hok ⊢ <;> first | rfl | (simp [Except.isOk, Except.toBool] at hok)

theorem ctor_ok_seeded (env : Env) (s : RNGState_v2)
    (h : (RNGState_v2.RNGState_v2 env).2 = .ok s) : s.m_strongly_seeded = true := by
  unfold RNGState_v2.RNGState_v2 at h
  split at h
  · cases h
  · split at h
    · cases h
    · simp only [Except.ok.injEq] at h
      rw [← h]

theorem runCalls_append (H : HashFunction) :
    ∀ (a b : List (OutPtr × Nat)) (s : RNGState_v2),
      runCalls H s (a ++ b) =
        ((runCalls H (runCalls H s a).1 b).1,
          (runCalls H s a).2 ++ (runCalls H (runCalls H s a).1 b).2) := by
  intro a
  induction a with
  | nil => intro b s; simp [runCalls]
  | cons c a ih =>
    intro b s
    obtain ⟨out, num⟩ := c
    simp [runCalls, ih]

theorem runCalls_seeded (H : HashFunction) :
    ∀ (calls : List (OutPtr × Nat)) (s : RNGState_v2), s.m_strongly_seeded = true →
      (runCalls H s calls).1.m_strongly_seeded = true ∧
      ∀ r, r ∈ (runCalls H s calls).2 → r ≠ .error Failure.NotSeededException := by
  intro calls
  induction calls with
  | nil => intro s hs; simp [runCalls, hs]
  | cons c calls ih =>
    intro s hs
    obtain ⟨out, num⟩ := c
    have hs' : (MixExtract H s out num).1.m_strongly_seeded = true := by
      rw [MixExtract_seeded_unchanged, hs]
    have := ih _ hs'
    refine ⟨this.1, ?_⟩
    intro r hr
    simp only [runCalls, List.mem_cons] at hr
    rcases hr with rfl | hr
    · exact MixExtract_seeded_no_NotSeeded H s out num hs
    · exact this.2 r hr

theorem runCalls_counter (H : HashFunction) :
    ∀ (calls : List (OutPtr × Nat)) (s : RNGState_v2),
      (runCalls H s calls).2.all Except.isOk = true →
      s.m_counter + calls.length < 2 ^ 64 →
      (runCalls H s calls).1.m_counter = s.m_counter + calls.length := by
  intro calls
  induction calls with
  | nil => intro s _ _; simp [runCalls]
  | cons c calls ih =>
    intro s hok hb
    obtain ⟨out, num⟩ := c
    simp only [runCalls, List.all_cons, Bool.and_eq_true] at hok
    have h1 := MixExtract_ok_counter H s out num hok.1
    simp only [List.length_cons] at hb
    have h1' : (MixExtract H s out num).1.m_counter = s.m_counter + 1 := by
      rw [h1]; exact Nat.mod_eq_of_lt (by omega)
    have := ih (MixExtract H s out num).1 hok.2 (by rw [h1']; omega)
    simp only [runCalls, List.length_cons]
    rw [this, h1']
    omega

/-! ## Invariants over the life of an object -/

/-- Claim C9. An object the constructor returns has `m_strongly_seeded = true`;
`MixExtract` never changes the flag; so after any sequence of `MixExtract` calls on a
constructed object the flag is still true and none of the calls failed with
`NotSeededException`. -/
theorem seeded_is_invariant (H : HashFunction) (env : Env) (s0 : RNGState_v2)
    (hctor : (RNGState_v2.RNGState_v2 env).2 = .ok s0) :
    s0.m_strongly_seeded = true ∧
    (∀ (s : RNGState_v2) (out : OutPtr) (num : Nat),
      (MixExtract H s out num).1.m_strongly_seeded = s.m_strongly_seeded) ∧
    ∀ calls : List (OutPtr × Nat),
      (runCalls H s0 calls).1.m_strongly_seeded = true ∧
      ∀ r, r ∈ (runCalls H s0 calls).2 → r ≠ .error Failure.NotSeededException :=
  ⟨ctor_ok_seeded env s0 hctor, MixExtract_seeded_unchanged H,
    fun calls => runCalls_seeded H calls s0 (ctor_ok_seeded env s0 hctor)⟩

/-- The theorem of claim C9 for the object built in the world `fakeEnv`. -/
theorem seeded_is_invariant_witness :
    (RNGState_v2.RNGState_v2 fakeEnv).2 = .ok fakeSeeded ∧
    fakeSeeded.m_strongly_seeded = true ∧
    ∀ calls : List (OutPtr × Nat),
      (runCalls toyHash fakeSeeded calls).1.m_strongly_seeded = true ∧
      ∀ r, r ∈ (runCalls toyHash fakeSeeded calls).2 →
        r ≠ .error Failure.NotSeededException :=
  ⟨rfl, (seeded_is_invariant toyHash fakeEnv fakeSeeded rfl).1,
    (seeded_is_invariant toyHash fakeEnv fakeSeeded rfl).2.2⟩

/-- Claim C10 fails when the counter holds `2^64 - 1`: the call succeeds and the
increment wraps the counter to 0, which is not greater than the value before. -/
theorem counter_wraps_at_max :
    lastCounterSeeded.m_strongly_seeded = true ∧
    lastCounterSeeded.m_counter = 2 ^ 64 - 1 ∧
    (MixExtract toyHash lastCounterSeeded OutPtr.buffer 32).2.isOk = true ∧
    (MixExtract toyHash lastCounterSeeded OutPtr.buffer 32).1.m_counter = 0 ∧
    ¬ (lastCounterSeeded.m_counter <
        (MixExtract toyHash lastCounterSeeded OutPtr.buffer 32).1.m_counter) :=
  ⟨rfl, rfl, rfl, rfl, by decide⟩

/-- Claim C10, amended. Over a sequence of `n` successful `MixExtract` calls on an object
whose counter `c` satisfies `c + n < 2^64`, every call adds exactly one to the counter: the
counter ends at `c + n`, and its value after any shorter run of the same calls is strictly
smaller than after any longer one. -/
theorem counter_strictly_increases_below_max (H : HashFunction) (s : RNGState_v2)
    (calls : List (OutPtr × Nat))
    (hok : (runCalls H s calls).2.all Except.isOk = true)
    (hbound : s.m_counter + calls.length < 2 ^ 64) :
    (runCalls H s calls).1.m_counter = s.m_counter + calls.length ∧
    ∀ a b : List (OutPtr × Nat), calls = a ++ b → b ≠ [] →
      (runCalls H s a).1.m_counter = s.m_counter + a.length ∧
      (runCalls H s a).1.m_counter < (runCalls H s calls).1.m_counter := by
  refine ⟨runCalls_counter H calls s hok hbound, ?_⟩
  intro a b hab hb
  subst hab
  have hlen : 0 < b.length := List.length_pos.mpr hb
  have hoka : (runCalls H s a).2.all Except.isOk = true := by
    rw [runCalls_append] at hok
    simp only [List.all_append, Bool.and_eq_true] at hok
    exact hok.1
  simp only [List.length_append] at hbound
  have ha := runCalls_counter H a s hoka (by omega)
  have hab := runCalls_counter H (a ++ b) s hok (by simp only [List.length_append]; omega)
  refine ⟨ha, ?_⟩
  rw [ha, hab, List.length_append]
  omega

/-- The theorem of claim C10 as amended, at three calls on the all-zero seeded object. -/
theorem counter_strictly_increases_below_max_witness :
    (runCalls toyHash zeroSeeded
      [(.buffer, 32), (.buffer, 0), (.buffer, 5)]).2.all Except.isOk = true ∧
    zeroSeeded.m_counter + 3 < 2 ^ 64 ∧
    (runCalls toyHash zeroSeeded [(.buffer, 32), (.buffer, 0), (.buffer, 5)]).1.m_counter = 3 ∧
    (runCalls toyHash zeroSeeded [(.buffer, 32)]).1.m_counter <
      (runCalls toyHash zeroSeeded [(.buffer, 32), (.buffer, 0), (.buffer, 5)]).1.m_counter :=
  ⟨rfl, by decide,
    (counter_strictly_increases_below_max toyHash zeroSeeded
      [(.buffer, 32), (.buffer, 0), (.buffer, 5)] rfl (by decide)).1,
    ((counter_strictly_increases_below_max toyHash zeroSeeded
      [(.buffer, 32), (.buffer, 0), (.buffer, 5)] rfl (by decide)).2
      [(.buffer, 32)] [(.buffer, 0), (.buffer, 5)] rfl (by simp)).2⟩

/-! ## The two halves of the digest -/

/-- What a call on a seeded object with a 32-byte state, `num <= 32` and a non-null `out`
computes, in terms of the digest. -/
theorem MixExtract_buffer_eq (H : HashFunction) (s : RNGState_v2) (num : Nat)
    (hseed : s.m_strongly_seeded = true) (hlen : s.m_state.length = 32) (hnum : num ≤ 32) :
    MixExtract H s OutPtr.buffer num =
      ({ m_state := (H.digest (s.m_state ++ toBytesLE s.m_counter 8)).drop 32,
         m_counter := (s.m_counter + 1) % 2 ^ 64,
         m_strongly_seeded := true },
       .ok ((H.digest (s.m_state ++ toBytesLE s.m_counter 8)).take num)) := by
  have hd : (H.digest (s.m_state ++ toBytesLE s.m_counter 8)).length = 64 :=
    H.digest_length _
  have htake : s.m_state.take 32 = s.m_state := List.take_of_length_le (by omega)
  have hdrop : ((H.digest (s.m_state ++ toBytesLE s.m_counter 8)).drop 32).take 32 =
      (H.digest (s.m_state ++ toBytesLE s.m_counter 8)).drop 32 :=
    List.take_of_length_le (by simp [hd])
  have hrest : s.m_state.drop 32 = [] := List.drop_of_length_le (by omega)
  simp [MixExtract, PRNG_STATE_LEN, sizeof_uint64_t, CSHA512.init, CSHA512.Write,
    CSHA512.Finalize, memcpy, hseed, hnum, htake, hdrop, hd, hrest]

/-- Claim C11. For a seeded object, `num <= 32` and a non-null `out`: two hashes whose
digests of the 40-byte message agree on bytes `[32,64)` leave the same object, two that
agree on bytes `[0,32)` return the same bytes; byte `i` returned is digest byte `i < 32`,
byte `j` of the new state is digest byte `32 + j`, and no digest index is in both. -/
theorem output_and_state_from_disjoint_halves (H1 H2 : HashFunction) (s : RNGState_v2)
    (out : OutPtr) (num : Nat) (hseed : s.m_strongly_seeded = true)
    (hlen : s.m_state.length = 32) (hnum : num ≤ 32) (hout : out = OutPtr.buffer) :
    ((H1.digest (s.m_state ++ toBytesLE s.m_counter 8)).drop 32 =
        (H2.digest (s.m_state ++ toBytesLE s.m_counter 8)).drop 32 →
      (MixExtract H1 s out num).1 = (MixExtract H2 s out num).1) ∧
    ((H1.digest (s.m_state ++ toBytesLE s.m_counter 8)).take 32 =
        (H2.digest (s.m_state ++ toBytesLE s.m_counter 8)).take 32 →
      (MixExtract H1 s out num).2 = (MixExtract H2 s out num).2) ∧
    (∃ bytes, (MixExtract H1 s out num).2 = .ok bytes ∧ bytes.length = num ∧
      ∀ i, i < num →
        bytes[i]? = (H1.digest (s.m_state ++ toBytesLE s.m_counter 8))[i]? ∧ i < 32) ∧
    ((MixExtract H1 s out num).1.m_state.length = 32 ∧
      ∀ j, j < 32 →
        (MixExtract H1 s out num).1.m_state[j]? =
          (H1.digest (s.m_state ++ toBytesLE s.m_counter 8))[32 + j]?) ∧
    ∀ i j, i < num → j < 32 → i ≠ 32 + j := by
  subst hout
  have hd : (H1.digest (s.m_state ++ toBytesLE s.m_counter 8)).length = 64 :=
    H1.digest_length _
  rw [MixExtract_buffer_eq H1 s num hseed hlen hnum,
    MixExtract_buffer_eq H2 s num hseed hlen hnum]
  refine ⟨?_, ?_, ?_, ?_, ?_⟩
  · intro h
    simp only [h]
  · intro h
    have e1 : (H1.digest (s.m_state ++ toBytesLE s.m_counter 8)).take num =
        ((H1.digest (s.m_state ++ toBytesLE s.m_counter 8)).take 32).take num := by
      rw [List.take_take, Nat.min_eq_left hnum]
    have e2 : (H2.digest (s.m_state ++ toBytesLE s.m_counter 8)).take num =
        ((H2.digest (s.m_state ++ toBytesLE s.m_counter 8)).take 32).take num := by
      rw [List.take_take, Nat.min_eq_left hnum]
    simp only [e1, e2, h]
  · refine ⟨_, rfl, by rw [List.length_take, hd]; omega, ?_⟩
    intro i hi
    exact ⟨by rw [List.getElem?_take, if_pos hi], by omega⟩
  · refine ⟨by simp only [List.length_drop, hd], ?_⟩
    intro j _
    simp only [List.getElem?_drop]
  · intro i j hi hj
    omega

/-- The theorem of claim C11 at the all-zero seeded object with two stand-in hashes that
agree on the second half of their digests only: the objects left are equal, the bytes
returned are not. -/
theorem output_and_state_from_disjoint_halves_witness :
    zeroSeeded.m_strongly_seeded = true ∧ zeroSeeded.m_state.length = 32 ∧ 32 ≤ 32 ∧
    (MixExtract toyHash zeroSeeded OutPtr.buffer 32).1 =
      (MixExtract toyHash2 zeroSeeded OutPtr.buffer 32).1 ∧
    (MixExtract toyHash zeroSeeded OutPtr.buffer 32).2 =
      .ok ((toyHash.digest (List.replicate 40 0)).take 32) ∧
    (MixExtract toyHash2 zeroSeeded OutPtr.buffer 32).2 =
      .ok ((toyHash2.digest (List.replicate 40 0)).take 32) ∧
    (toyHash.digest (List.replicate 40 0)).take 32 ≠
      (toyHash2.digest (List.replicate 40 0)).take 32 :=
  ⟨rfl, rfl, Nat.le_refl 32,
    (output_and_state_from_disjoint_halves toyHash toyHash2 zeroSeeded OutPtr.buffer 32
      rfl rfl (Nat.le_refl 32) rfl).1 rfl,
    rfl, rfl, by decide⟩

/-- Claim C16. From the same seeded object with a 32-byte state, calls with any two lengths
`num1, num2 <= 32` leave the same object; `MixExtract(0)` with a non-null `out` returns no
bytes and still replaces the state by digest bytes `[32,64)` and increments the counter. -/
theorem state_transition_independent_of_num (H : HashFunction) (s : RNGState_v2)
    (out1 out2 : OutPtr) (num1 num2 : Nat) (hseed : s.m_strongly_seeded = true)
    (hlen : s.m_state.length = 32) (h1 : num1 ≤ 32) (h2 : num2 ≤ 32) :
    (MixExtract H s out1 num1).1 = (MixExtract H s out2 num2).1 ∧
    MixExtract H s OutPtr.buffer 0 =
      ({ m_state := (H.digest (s.m_state ++ toBytesLE s.m_counter 8)).drop 32,
         m_counter := (s.m_counter + 1) % 2 ^ 64,
         m_strongly_seeded := true },
       .ok []) := by
  constructor
  · have hn1 : num1 ≤ PRNG_STATE_LEN := h1
    have hn2 : num2 ≤ PRNG_STATE_LEN := h2
    unfold MixExtract
    simp only [hn1, hn2, hseed, not_true_eq_false, if_false]
    split_ifs <;> rfl
  · rw [MixExtract_buffer_eq H s 0 hseed hlen (Nat.zero_le 32)]
    simp

/-- The theorem of claim C16 at the all-zero seeded object, lengths 0 and 32. -/
theorem state_transition_independent_of_num_witness :
    zeroSeeded.m_strongly_seeded = true ∧ zeroSeeded.m_state.length = 32 ∧
    (MixExtract toyHash zeroSeeded OutPtr.buffer 0).1 =
      (MixExtract toyHash zeroSeeded OutPtr.buffer 32).1 ∧
    (MixExtract toyHash zeroSeeded OutPtr.buffer 0).2 = .ok [] ∧
    (MixExtract toyHash zeroSeeded OutPtr.buffer 0).1.m_counter = 1 :=
  ⟨rfl, rfl,
    (state_transition_independent_of_num toyHash zeroSeeded OutPtr.buffer OutPtr.buffer 0 32
      rfl rfl (Nat.zero_le 32) (Nat.le_refl 32)).1,
    rfl, rfl⟩

/-! ## Destruction -/

/-- Claim C12 fails on the flag: the destructor cleanses `m_state` and `m_counter` only, so
after it has run on a seeded object `m_strongly_seeded` is still true. -/
theorem destructor_keeps_seeded_flag :
    (RNGState_v2.destructor zeroSeeded).m_strongly_seeded = true ∧
    (RNGState_v2.destructor fakeSeeded).m_strongly_seeded ≠ false :=
  ⟨rfl, by decide⟩

/-- Claim C12, amended. After the destructor has run, the 32 bytes of `m_state` are zero
and `m_counter` is zero; `m_strongly_seeded` keeps the value it had. -/
theorem destructor_zeroizes_state_and_counter (s : RNGState_v2)
    (hlen : s.m_state.length = 32) :
    (RNGState_v2.destructor s).m_state = List.replicate 32 0 ∧
    (RNGState_v2.destructor s).m_counter = 0 ∧
    (RNGState_v2.destructor s).m_strongly_seeded = s.m_strongly_seeded := by
  have hrest : s.m_state.drop 32 = [] := List.drop_of_length_le (by omega)
  have hc : (toBytesLE s.m_counter 8).drop 8 = [] :=
    List.drop_of_length_le (by rw [toBytesLE_length])
  refine ⟨?_, ?_, rfl⟩
  · simp [RNGState_v2.destructor, memory_cleanse, PRNG_STATE_LEN, hrest]
  · simp only [RNGState_v2.destructor, memory_cleanse, sizeof_uint64_t, hc,
      List.append_nil]
    rfl

/-- The theorem of claim C12 as amended, at the object built in the world `fakeEnv`. -/
theorem destructor_zeroizes_state_and_counter_witness :
    fakeSeeded.m_state.length = 32 ∧
    (RNGState_v2.destructor fakeSeeded).m_state = List.replicate 32 0 ∧
    (RNGState_v2.destructor fakeSeeded).m_counter = 0 ∧
    (RNGState_v2.destructor fakeSeeded).m_strongly_seeded = true :=
  ⟨rfl, (destructor_zeroizes_state_and_counter fakeSeeded rfl).1,
    (destructor_zeroizes_state_and_counter fakeSeeded rfl).2.1,
    (destructor_zeroizes_state_and_counter fakeSeeded rfl).2.2⟩

/-! ## The temporaries -/

theorem MixExtract_traced_eq (H : HashFunction) (s : RNGState_v2) (out : OutPtr)
    (num : Nat) :
    ((MixExtract_traced H s out num).self, (MixExtract_traced H s out num).result) =
      MixExtract H s out num := by
  unfold MixExtract_traced MixExtract
  split_ifs <;> rfl

theorem cleansed_word (w : Nat) :
    fromBytesLE (memory_cleanse (toBytesLE w sizeof_unsigned_int) sizeof_unsigned_int) = 0 := by
  have h : (toBytesLE w sizeof_unsigned_int).drop sizeof_unsigned_int = [] :=
    List.drop_of_length_le (by rw [toBytesLE_length])
  simp only [memory_cleanse, h, List.append_nil]
  rfl

theorem seedLoop_traced_fst (env : Env) (rd : Token) :
    ∀ (k i : Nat) (st : List Nat) (log : List Event) (tmp : Option Nat),
      (seedLoop_traced env rd k i st log tmp).1 = seedLoop env rd k i st log := by
  intro k
  induction k with
  | zero => intro i st log tmp; rfl
  | succ k ih =>
    intro i st log tmp
    simp only [seedLoop_traced, seedLoop]
    split_ifs
    · rfl
    · exact ih _ _ _ _

theorem seedLoop_traced_tmp (env : Env) (rd : Token) :
    ∀ (k i : Nat) (st : List Nat) (log : List Event) (tmp : Option Nat),
      (tmp = none ∨ tmp = some 0) →
      (seedLoop_traced env rd k i st log tmp).2 = none ∨
        (seedLoop_traced env rd k i st log tmp).2 = some 0 := by
  intro k
  induction k with
  | zero => intro i st log tmp h; exact h
  | succ k ih =>
    intro i st log tmp h
    simp only [seedLoop_traced]
    split_ifs
    · exact h
    · exact ih _ _ _ _ (Or.inr (by rw [cleansed_word]))

/-- Claim C13 fails on one way out of `MixExtract`: on a seeded object with `num <= 32`
and a null `out`, the call ends at `assert(out != nullptr)` with the digest still in `buf`. -/
theorem buf_holds_digest_at_out_assertion :
    (MixExtract_traced toyHash zeroSeeded OutPtr.nullptr 32).result =
      .error Failure.AssertionFailed ∧
    (MixExtract_traced toyHash zeroSeeded OutPtr.nullptr 32).buf =
      some (toyHash.digest (List.replicate 40 0)) ∧
    toyHash.digest (List.replicate 40 0) ≠ List.replicate 64 0 ∧
    ¬ ((MixExtract_traced toyHash zeroSeeded OutPtr.nullptr 32).buf = none ∨
      (MixExtract_traced toyHash zeroSeeded OutPtr.nullptr 32).buf =
        some (List.replicate 64 0)) :=
  ⟨rfl, rfl, by decide, by decide⟩

/-- Claim C13, amended. When `MixExtract` returns normally its local `buf` is all zero;
when it throws `NotSeededException` or fails `assert(num <= PRNG_STATE_LEN)`, `buf` was
never written.  However the seeding loop ends, normally or with `OutOfEntropyException` in
any round, the temporary `random_value` is zero or was never written. -/
theorem temporaries_erased (H : HashFunction) (s : RNGState_v2) (out : OutPtr) (num : Nat)
    (env : Env) (rd : Token) (i : Nat) (st : List Nat) (log : List Event) :
    ((MixExtract_traced H s out num).self, (MixExtract_traced H s out num).result) =
      MixExtract H s out num ∧
    (∀ bytes, (MixExtract_traced H s out num).result = .ok bytes →
      (MixExtract_traced H s out num).buf = some (List.replicate 64 0)) ∧
    ((MixExtract_traced H s out num).result = .error Failure.NotSeededException →
      (MixExtract_traced H s out num).buf = none) ∧
    (32 < num → (MixExtract_traced H s out num).result = .error Failure.AssertionFailed ∧
      (MixExtract_traced H s out num).buf = none) ∧
    (seedLoop_traced env rd (PRNG_STATE_LEN / sizeof_unsigned_int) i st log none).1 =
      seedLoop env rd (PRNG_STATE_LEN / sizeof_unsigned_int) i st log ∧
    ((seedLoop_traced env rd (PRNG_STATE_LEN / sizeof_unsigned_int) i st log none).2 = none ∨
      (seedLoop_traced env rd (PRNG_STATE_LEN / sizeof_unsigned_int) i st log none).2 =
        some 0) := by
  refine ⟨MixExtract_traced_eq H s out num, ?_, ?_, ?_, seedLoop_traced_fst env rd _ i st log none,
    seedLoop_traced_tmp env rd _ i st log none (Or.inl rfl)⟩
  · intro bytes h
    by_cases hn : num ≤ PRNG_STATE_LEN
    · by_cases hs : s.m_strongly_seeded = true
      · cases out with
        | nullptr => simp [MixExtract_traced, hn, hs] at h
        | buffer =>
          have hd := H.digest_length (s.m_state.take PRNG_STATE_LEN ++
            toBytesLE s.m_counter sizeof_uint64_t)
          have hrest : (H.digest (s.m_state.take PRNG_STATE_LEN ++
              toBytesLE s.m_counter sizeof_uint64_t)).drop 64 = [] :=
            List.drop_of_length_le (by rw [hd]; exact Nat.le_refl 64)
          have hn' : ¬ (32 < num) := by simp only [PRNG_STATE_LEN] at hn; omega
          simp [MixExtract_traced, hn', hs, CSHA512.init, CSHA512.Write, CSHA512.Finalize,
            memory_cleanse, PRNG_STATE_LEN, hrest]
          exact Nat.le_of_eq (H.digest_length _)
      · simp [MixExtract_traced, hn, hs] at h
    · simp [MixExtract_traced, hn] at h
  · intro h
    by_cases hn : num ≤ PRNG_STATE_LEN
    · by_cases hs : s.m_strongly_seeded = true
      · cases out <;> simp [MixExtract_traced, hn, hs] at h
      · simp [MixExtract_traced, hn, hs]
    · simp [MixExtract_traced, hn] at h
  · intro h
    have hn : ¬ (num ≤ PRNG_STATE_LEN) := by simp only [PRNG_STATE_LEN]; omega
    simp [MixExtract_traced, hn]

/-- The theorem of claim C13 as amended, at a normal return of `MixExtract` on the all-zero
seeded object and at the seeding loop in the world whose device runs dry in round 2. -/
theorem temporaries_erased_witness :
    (MixExtract_traced toyHash zeroSeeded OutPtr.buffer 32).buf =
      some (List.replicate 64 0) ∧
    (seedLoop_traced fadingEnv .rdseed 8 0 (List.replicate 32 0) [.entropy .rdseed 32]
      none).1.2 = .error Failure.OutOfEntropyException ∧
    ((seedLoop_traced fadingEnv .rdseed 8 0 (List.replicate 32 0) [.entropy .rdseed 32]
        none).2 = none ∨
      (seedLoop_traced fadingEnv .rdseed 8 0 (List.replicate 32 0) [.entropy .rdseed 32]
        none).2 = some 0) :=
  ⟨(temporaries_erased toyHash zeroSeeded OutPtr.buffer 32 fadingEnv .rdseed 0
      (List.replicate 32 0) [.entropy .rdseed 32]).2.1 _ rfl,
    rfl,
    (temporaries_erased toyHash zeroSeeded OutPtr.buffer 32 fadingEnv .rdseed 0
      (List.replicate 32 0) [.entropy .rdseed 32]).2.2.2.2.2⟩

/-! ## Counting checks and reads -/

theorem entropyQueries_append (rd : Token) (a b : List Event) :
    entropyQueries rd (a ++ b) = entropyQueries rd a + entropyQueries rd b := by
  simp [entropyQueries, List.filter_append]

theorem readsOn_append (rd : Token) (a b : List Event) :
    readsOn rd (a ++ b) = readsOn rd a + readsOn rd b := by
  simp [readsOn, List.filter_append]

theorem entropyQueries_seedRound (env : Env) (rd : Token) (log : List Event) :
    entropyQueries rd (seedRound env rd log) = entropyQueries rd log + 1 := by
  simp [seedRound, entropyQueries, List.filter_append, Event.isRead, Event.token]

theorem readsOn_seedRound (env : Env) (rd : Token) (log : List Event) :
    readsOn rd (seedRound env rd log) = readsOn rd log + 1 := by
  simp [seedRound, readsOn, List.filter_append, Event.isRead, Event.token]

theorem entropyQueries_roundsLog (env : Env) (rd : Token) :
    ∀ (k : Nat) (log : List Event),
      entropyQueries rd (roundsLog env rd k log) = entropyQueries rd log + k := by
  intro k
  induction k with
  | zero => intro log; rfl
  | succ k ih =>
    intro log
    rw [roundsLog, ih, entropyQueries_seedRound]
    omega

theorem readsOn_roundsLog (env : Env) (rd : Token) :
    ∀ (k : Nat) (log : List Event),
      readsOn rd (roundsLog env rd k log) = readsOn rd log + k := by
  intro k
  induction k with
  | zero => intro log; rfl
  | succ k ih =>
    intro log
    rw [roundsLog, ih, readsOn_seedRound]
    omega

theorem readsChecked_append_check (rd : Token) (e : Nat) :
    ∀ (a : List Event) (p : Option Event),
      readsChecked p (a ++ [.entropy rd e]) = readsChecked p a := by
  intro a
  induction a with
  | nil => intro p; simp [readsChecked]
  | cons ev a ih =>
    intro p
    cases ev with
    | entropy t x => simp [readsChecked, ih]
    | call t x => simp [readsChecked, ih]

theorem readsChecked_append_round (rd : Token) (e w : Nat)
    (he : sizeof_unsigned_int ≤ e) :
    ∀ (a : List Event) (p : Option Event),
      readsChecked p (a ++ [.entropy rd e, .call rd w]) = readsChecked p a := by
  intro a
  induction a with
  | nil => intro p; simp [readsChecked, he]
  | cons ev a ih =>
    intro p
    cases ev with
    | entropy t x => simp [readsChecked, ih]
    | call t x => simp [readsChecked, ih]

theorem readsChecked_roundsLog (env : Env) (rd : Token) (p : Option Event) :
    ∀ (k : Nat) (log : List Event),
      (∀ j, j < k → sizeof_unsigned_int ≤ env.entropy (roundsLog env rd j log) rd) →
      readsChecked p (roundsLog env rd k log) = readsChecked p log := by
  intro k
  induction k with
  | zero => intro log _; rfl
  | succ k ih =>
    intro log h
    have h0 : sizeof_unsigned_int ≤ env.entropy log rd := by
      simpa [roundsLog] using h 0 (Nat.succ_pos k)
    have hrest : ∀ j, j < k →
        sizeof_unsigned_int ≤ env.entropy (roundsLog env rd j (seedRound env rd log)) rd := by
      intro j hj
      simpa [roundsLog] using h (j + 1) (Nat.succ_lt_succ hj)
    rw [roundsLog, ih _ hrest, seedRound, List.append_assoc, List.singleton_append,
      readsChecked_append_round rd _ _ h0]

/-- The log of the selection: one check of the selected device, no read. -/
theorem selectSource_counts (env : Env) (log : List Event) (rd : Token)
    (h : selectSource env [] = (log, .ok rd)) :
    entropyQueries rd log = 1 ∧ readsOn rd log = 0 ∧ readsChecked none log = true := by
  simp only [selectSource] at h
  split_ifs at h <;> simp only [Prod.mk.injEq, Except.ok.injEq, reduceCtorEq, and_false] at h
  all_goals
    obtain ⟨rfl, rfl⟩ := h
    simp [entropyQueries, readsOn, readsChecked, Event.isRead, Event.token]

/-- Claim C15. Once a device `rd` is selected: a constructor call that succeeds has read
`rd` exactly `32 / 4 = 8` times and asked it for its estimate exactly 9 times (once to
qualify, once before each read), every read coming right after a passing check of `rd`;
a call that throws `OutOfEntropyException` at check `k` has read exactly `k - 1` words. -/
theorem ctor_checks_and_reads (env : Env) (log0 : List Event) (rd : Token)
    (hsel : selectSource env [] = (log0, .ok rd)) :
    PRNG_STATE_LEN / sizeof_unsigned_int = 8 ∧
    entropyQueries rd log0 = 1 ∧
    (∀ log s, RNGState_v2.RNGState_v2 env = (log, .ok s) →
      readsOn rd log = 8 ∧ (wordsRead log).length = 8 ∧ entropyQueries rd log = 9 ∧
      readsChecked none log = true) ∧
    ∀ k, 1 ≤ k → k ≤ 8 →
      (∀ j, 1 ≤ j → j < k → sizeof_unsigned_int ≤ preReadEstimate env rd log0 j) →
      preReadEstimate env rd log0 k < sizeof_unsigned_int →
      (RNGState_v2.RNGState_v2 env).2 = .error .OutOfEntropyException ∧
      (wordsRead (RNGState_v2.RNGState_v2 env).1).length = k - 1 ∧
      readsOn rd (RNGState_v2.RNGState_v2 env).1 = k - 1 ∧
      entropyQueries rd (RNGState_v2.RNGState_v2 env).1 = k + 1 ∧
      readsChecked none (RNGState_v2.RNGState_v2 env).1 = true := by
  obtain ⟨hq0, hr0, hc0⟩ := selectSource_counts env log0 rd hsel
  have hw0 : wordsRead log0 = [] := by
    have := wordsRead_selectSource env []
    rw [hsel] at this
    simpa [wordsRead] using this
  refine ⟨by decide, hq0, ?_, ?_⟩
  · intro log s hctor
    rcases seedLoop_outcome env rd 8 0 (List.replicate 32 0) log0 with
      ⟨hall, _⟩ | ⟨j, hj, hpass, hfail, _⟩
    · rw [ctor_of_pass env log0 rd hsel hall] at hctor
      have hlog : log = roundsLog env rd 8 log0 := (Prod.mk.inj hctor).1.symm
      subst hlog
      refine ⟨?_, ?_, ?_, ?_⟩
      · rw [readsOn_roundsLog, hr0]
      · rw [wordsRead_roundsLog, hw0, List.nil_append, roundsWords_length]
      · rw [entropyQueries_roundsLog, hq0]
      · rw [readsChecked_roundsLog env rd none 8 log0 hall, hc0]
    · rw [ctor_of_fail env log0 rd hsel j hj hpass hfail] at hctor
      have := (Prod.mk.inj hctor).2
      cases this
  · intro k hk1 hk8 hpass hfail
    have hpass' : ∀ j', j' < k - 1 →
        sizeof_unsigned_int ≤ env.entropy (roundsLog env rd j' log0) rd := by
      intro j' hj'
      have := hpass (j' + 1) (by omega) (by omega)
      simpa [preReadEstimate] using this
    rw [ctor_of_fail env log0 rd hsel (k - 1) (by omega) hpass' hfail]
    refine ⟨rfl, ?_, ?_, ?_, ?_⟩
    · show (wordsRead (roundsLog env rd (k - 1) log0 ++ _)).length = k - 1
      rw [wordsRead_append, wordsRead_roundsLog, hw0, List.nil_append, List.length_append,
        roundsWords_length]
      simp [wordsRead]
    · show readsOn rd (roundsLog env rd (k - 1) log0 ++ _) = k - 1
      rw [readsOn_append, readsOn_roundsLog, hr0]
      simp [readsOn, Event.isRead]
    · show entropyQueries rd (roundsLog env rd (k - 1) log0 ++ _) = k + 1
      rw [entropyQueries_append, entropyQueries_roundsLog, hq0]
      simp [entropyQueries, Event.isRead, Event.token]
      omega
    · show readsChecked none (roundsLog env rd (k - 1) log0 ++ _) = true
      rw [readsChecked_append_check, readsChecked_roundsLog env rd none (k - 1) log0 hpass',
        hc0]

/-- The theorem of claim C15 in the fake world where the third device is selected and
seeding succeeds. -/
theorem ctor_checks_and_reads_witness :
    selectSource fakeEnv [] =
      ([.entropy .rdseed 0, .entropy .dev_random 3, .entropy .dev_urandom 32],
        .ok .dev_urandom) ∧
    readsOn .dev_urandom (RNGState_v2.RNGState_v2 fakeEnv).1 = 8 ∧
    (wordsRead (RNGState_v2.RNGState_v2 fakeEnv).1).length = 8 ∧
    entropyQueries .dev_urandom (RNGState_v2.RNGState_v2 fakeEnv).1 = 9 ∧
    readsChecked none (RNGState_v2.RNGState_v2 fakeEnv).1 = true :=
  ⟨rfl, (ctor_checks_and_reads fakeEnv _ .dev_urandom rfl).2.2.1 _ fakeSeeded rfl⟩

/-! ## Hash inputs -/

theorem toBytesLE_succ (n w : Nat) :
    toBytesLE n (w + 1) = n % 256 :: toBytesLE (n / 256) w := by
  simp only [toBytesLE, List.range_succ_eq_map, List.map_cons, List.map_map, pow_zero,
    Nat.div_one]
  congr 1
  apply List.map_congr_left
  intro i _
  simp only [Function.comp, pow_succ, Nat.div_div_eq_div_mul]
  rw [Nat.mul_comm]

theorem fromBytesLE_toBytesLE :
    ∀ (w n : Nat), fromBytesLE (toBytesLE n w) = n % 256 ^ w := by
  intro w
  induction w with
  | zero => intro n; simp [toBytesLE, fromBytesLE, Nat.mod_one]
  | succ w ih =>
    intro n
    rw [toBytesLE_succ, fromBytesLE, ih, pow_succ, Nat.mul_comm (256 ^ w) 256, Nat.mod_mul]

theorem toBytesLE_inj (a b : Nat) (h : toBytesLE a 8 = toBytesLE b 8) :
    a % 2 ^ 64 = b % 2 ^ 64 := by
  have := congrArg fromBytesLE h
  rw [fromBytesLE_toBytesLE, fromBytesLE_toBytesLE] at this
  simpa using this

theorem hashInput_of_ok (H : HashFunction) (s : RNGState_v2) (out : OutPtr) (num : Nat)
    (hok : (MixExtract H s out num).2.isOk = true) :
    hashInput s num = some (s.m_state.take 32 ++ toBytesLE s.m_counter 8) := by
  by_cases hn : num ≤ PRNG_STATE_LEN
  · by_cases hs : s.m_strongly_seeded = true
    · have hn' : num ≤ 32 := hn
      simp [hashInput, hn', hs, CSHA512.init, CSHA512.Write, PRNG_STATE_LEN, sizeof_uint64_t]
    · simp [MixExtract, hn, hs, Except.isOk, Except.toBool] at hok
  · simp [MixExtract, hn, Except.isOk, Except.toBool] at hok

theorem MixExtract_state_length (H : HashFunction) (s : RNGState_v2) (out : OutPtr)
    (num : Nat) (hlen : s.m_state.length = 32) :
    (MixExtract H s out num).1.m_state.length = 32 := by
  have hd := H.digest_length (s.m_state.take 32 ++ toBytesLE s.m_counter 8)
  unfold MixExtract
  split_ifs <;>
    simp [memcpy, hlen, PRNG_STATE_LEN, sizeof_uint64_t, CSHA512.init, CSHA512.Write,
      CSHA512.Finalize, hd, OUTPUT_SIZE]

theorem mem_hashInputs (H : HashFunction) :
    ∀ (calls : List (OutPtr × Nat)) (s : RNGState_v2) (x : List Nat),
      s.m_state.length = 32 →
      (runCalls H s calls).2.all Except.isOk = true →
      x ∈ hashInputs H s calls →
      ∃ st c k, k < calls.length ∧ st.length = 32 ∧ x = st ++ toBytesLE c 8 ∧
        c % 2 ^ 64 = (s.m_counter + k) % 2 ^ 64 := by
  intro calls
  induction calls with
  | nil => intro s x _ _ hx; simp [hashInputs] at hx
  | cons c calls ih =>
    intro s x hlen hok hx
    obtain ⟨out, num⟩ := c
    simp only [runCalls, List.all_cons, Bool.and_eq_true] at hok
    simp only [hashInputs, List.mem_append] at hx
    rcases hx with hx | hx
    · rw [hashInput_of_ok H s out num hok.1] at hx
      simp only [Option.toList, List.mem_singleton] at hx
      exact ⟨_, s.m_counter, 0, by simp, by rw [List.length_take, hlen]; rfl, hx, rfl⟩
    · obtain ⟨st, c, k, hk, hst, hx', hc⟩ :=
        ih _ x (MixExtract_state_length H s out num hlen) hok.2 hx
      refine ⟨st, c, k + 1, by simp only [List.length_cons]; omega, hst, hx', ?_⟩
      rw [hc, MixExtract_ok_counter H s out num hok.1]
      omega

theorem hashInputs_length (H : HashFunction) :
    ∀ (calls : List (OutPtr × Nat)) (s : RNGState_v2),
      (runCalls H s calls).2.all Except.isOk = true →
      (hashInputs H s calls).length = calls.length := by
  intro calls
  induction calls with
  | nil => intro s _; rfl
  | cons c calls ih =>
    intro s hok
    obtain ⟨out, num⟩ := c
    simp only [runCalls, List.all_cons, Bool.and_eq_true] at hok
    rw [hashInputs, hashInput_of_ok H s out num hok.1]
    simp [ih _ hok.2]

theorem hashInputs_suffix_pairwise (H : HashFunction) :
    ∀ (calls : List (OutPtr × Nat)) (s : RNGState_v2),
      s.m_state.length = 32 →
      (runCalls H s calls).2.all Except.isOk = true →
      calls.length ≤ 2 ^ 64 →
      ((hashInputs H s calls).map (fun x => x.drop 32)).Pairwise (fun x y => x ≠ y) := by
  intro calls
  induction calls with
  | nil => intro s _ _ _; simp [hashInputs]
  | cons c calls ih =>
    intro s hlen hok hn
    obtain ⟨out, num⟩ := c
    have hok' := hok
    simp only [runCalls, List.all_cons, Bool.and_eq_true] at hok'
    simp only [List.length_cons] at hn
    have hlen' := MixExtract_state_length H s out num hlen
    have h32 : (s.m_state.take 32).length = 32 := by rw [List.length_take, hlen]; rfl
    simp only [hashInputs, hashInput_of_ok H s out num hok'.1, Option.toList,
      List.singleton_append, List.map_cons, List.pairwise_cons]
    refine ⟨?_, ih _ hlen' hok'.2 (by omega)⟩
    intro y' hy' heq
    obtain ⟨y, hy, rfl⟩ := List.mem_map.mp hy'
    obtain ⟨st, c, k, hk, hst, hyeq, hc⟩ := mem_hashInputs H calls _ y hlen' hok'.2 hy
    rw [hyeq, List.drop_left' h32, List.drop_left' hst] at heq
    have hmod := toBytesLE_inj _ _ heq
    rw [hc, MixExtract_ok_counter H s out num hok'.1] at hmod
    omega

theorem runCalls_counter_exact (H : HashFunction) :
    ∀ (calls : List (OutPtr × Nat)) (s : RNGState_v2),
      s.m_counter < 2 ^ 64 →
      (runCalls H s calls).2.all Except.isOk = true →
      (runCalls H s calls).1.m_counter = (s.m_counter + calls.length) % 2 ^ 64 := by
  intro calls
  induction calls with
  | nil => intro s hc _; simp only [runCalls, List.length_nil]; omega
  | cons c calls ih =>
    intro s hc hok
    obtain ⟨out, num⟩ := c
    simp only [runCalls, List.all_cons, Bool.and_eq_true] at hok
    have h1 := MixExtract_ok_counter H s out num hok.1
    have := ih (MixExtract H s out num).1 (by rw [h1]; omega) hok.2
    simp only [runCalls, List.length_cons]
    rw [this, h1]
    omega

theorem ctor_ok_counter (env : Env) (s : RNGState_v2)
    (h : (RNGState_v2.RNGState_v2 env).2 = .ok s) : s.m_counter = 0 := by
  unfold RNGState_v2.RNGState_v2 at h
  split at h
  · cases h
  · split at h
    · cases h
    · simp only [Except.ok.injEq] at h
      rw [← h]

/-- Claim C17. Whatever the hash returns, the messages hashed by `n <= 2^64` successful
`MixExtract` calls in a row on a seeded object with a 32-byte state are `n` messages of 40
bytes whose last 8 bytes (the counter) are pairwise distinct; so the messages are pairwise
distinct. -/
theorem hash_inputs_pairwise_distinct (H : HashFunction) (s : RNGState_v2)
    (calls : List (OutPtr × Nat)) (hlen : s.m_state.length = 32)
    (hok : (runCalls H s calls).2.all Except.isOk = true)
    (hn : calls.length ≤ 2 ^ 64) :
    (hashInputs H s calls).length = calls.length ∧
    (∀ x, x ∈ hashInputs H s calls → x.length = 40) ∧
    ((hashInputs H s calls).map (fun x => x.drop 32)).Pairwise (fun x y => x ≠ y) ∧
    (hashInputs H s calls).Pairwise (fun x y => x ≠ y) := by
  have hsuf := hashInputs_suffix_pairwise H calls s hlen hok hn
  refine ⟨hashInputs_length H calls s hok, ?_, hsuf, ?_⟩
  · intro x hx
    obtain ⟨st, c, k, _, hst, hx', _⟩ := mem_hashInputs H calls s x hlen hok hx
    rw [hx', List.length_append, hst, toBytesLE_length]
  · exact List.Pairwise.of_map (fun x => x.drop 32)
      (fun a b hab heq => hab (by rw [heq])) hsuf

/-- The theorem of claim C17 at three calls on the all-zero seeded object. -/
theorem hash_inputs_pairwise_distinct_witness :
    zeroSeeded.m_state.length = 32 ∧
    (runCalls toyHash zeroSeeded
      [(.buffer, 32), (.buffer, 0), (.buffer, 5)]).2.all Except.isOk = true ∧
    ((hashInputs toyHash zeroSeeded [(.buffer, 32), (.buffer, 0), (.buffer, 5)]).map
      (fun x => x.drop 32)) =
      [[0, 0, 0, 0, 0, 0, 0, 0], [1, 0, 0, 0, 0, 0, 0, 0], [2, 0, 0, 0, 0, 0, 0, 0]] ∧
    (hashInputs toyHash zeroSeeded
      [(.buffer, 32), (.buffer, 0), (.buffer, 5)]).Pairwise (fun x y => x ≠ y) :=
  ⟨rfl, rfl, rfl,
    (hash_inputs_pairwise_distinct toyHash zeroSeeded
      [(.buffer, 32), (.buffer, 0), (.buffer, 5)] rfl rfl (by decide)).2.2.2⟩

/-- Claim C18. An object the constructor returns has `m_counter = 0`; after any `k`
successful `MixExtract` calls on it the counter is `k mod 2^64`; so call number `k >= 1`
runs on counter `(k - 1) mod 2^64` and hashes the state followed by the 8-byte encoding of
that value. -/
theorem counter_counts_extractions (H : HashFunction) (env : Env) (s0 : RNGState_v2)
    (hctor : (RNGState_v2.RNGState_v2 env).2 = .ok s0) :
    s0.m_counter = 0 ∧
    ∀ calls : List (OutPtr × Nat), (runCalls H s0 calls).2.all Except.isOk = true →
      (runCalls H s0 calls).1.m_counter = calls.length % 2 ^ 64 ∧
      ∀ (a : List (OutPtr × Nat)) (c : OutPtr × Nat) (b : List (OutPtr × Nat)),
        calls = a ++ c :: b →
        (runCalls H s0 a).1.m_counter = a.length % 2 ^ 64 ∧
        hashInput (runCalls H s0 a).1 c.2 =
          some ((runCalls H s0 a).1.m_state.take 32 ++ toBytesLE (a.length % 2 ^ 64) 8) := by
  have h0 := ctor_ok_counter env s0 hctor
  refine ⟨h0, ?_⟩
  intro calls hok
  have hlt : s0.m_counter < 2 ^ 64 := by rw [h0]; exact Nat.two_pow_pos 64
  constructor
  · rw [runCalls_counter_exact H calls s0 hlt hok, h0, Nat.zero_add]
  · intro a c b hab
    subst hab
    obtain ⟨out, num⟩ := c
    rw [runCalls_append] at hok
    simp only [List.all_append, Bool.and_eq_true, runCalls, List.all_cons] at hok
    have ha := runCalls_counter_exact H a s0 hlt hok.1
    rw [h0, Nat.zero_add] at ha
    refine ⟨ha, ?_⟩
    rw [hashInput_of_ok H _ out num hok.2.1, ha]

/-- The theorem of claim C18 for the object built in the world `fakeEnv`, at three calls. -/
theorem counter_counts_extractions_witness :
    (RNGState_v2.RNGState_v2 fakeEnv).2 = .ok fakeSeeded ∧
    fakeSeeded.m_counter = 0 ∧
    (runCalls toyHash fakeSeeded [(.buffer, 32), (.buffer, 0), (.buffer, 5)]).1.m_counter =
      3 % 2 ^ 64 ∧
    (hashInputs toyHash fakeSeeded [(.buffer, 32), (.buffer, 0), (.buffer, 5)]).map
      (fun x => x.drop 32) =
      [toBytesLE 0 8, toBytesLE 1 8, toBytesLE 2 8] :=
  ⟨rfl, (counter_counts_extractions toyHash fakeEnv fakeSeeded rfl).1,
    ((counter_counts_extractions toyHash fakeEnv fakeSeeded rfl).2
      [(.buffer, 32), (.buffer, 0), (.buffer, 5)] rfl).1,
    rfl⟩

end RandomV2
